import Mathlib

/-!
# Verification of the SlitherLink solver core

Shallow embedding of the repository's solver core, translated from
`src/edge_count.py`, `src/sudoku/pos.py` and `src/sudoku/sudoku.py`
(the top-level `src/sudoku.py` / `src/pos.py` are older copies of the
same modules and are not the ones the specification describes).

Python dictionaries are embedded as functions into `Option` (absent key
= `none`); the `entry` dictionary, which is only written during
construction, is embedded as an association list so that
`validate_solution`'s iteration over it can be expressed.  Python's
exceptions are embedded with `Except`: each stateful operation has type
`Sudoku → Except Err α × Sudoku`, so that the state mutated before an
exception is preserved, exactly as for a Python object whose method
raises.  Python set iteration order is unspecified; the embedding fixes
a definite order in the places where the code iterates over a set, and
claims are only made about facts independent of that order.
-/

namespace SlitherLink

/-- Exceptions the embedded code can raise, mirroring the Python
exception kinds: `KeyError` (missing dict key), `ValueError`
(explicit `raise ValueError` and failed tuple unpacking), and
`AttributeError` (method call on `None`). -/
inductive Err where
  | keyError : Err
  | valueError : Err
  | attributeError : Err
deriving DecidableEq, Repr

/-- `EdgeType` from `src/edge_count.py`: the tri-state of an edge. -/
inductive EdgeType where
  | THICK : EdgeType
  | SPACE : EdgeType
  | CROSS : EdgeType
deriving DecidableEq, Repr

/-- `EdgeCount` from `src/edge_count.py`: a named subset of {0,1,2}. -/
inductive EdgeCount where
  | ZERO : EdgeCount
  | ONE : EdgeCount
  | TWO : EdgeCount
  | EVEN : EdgeCount
  | SMALL : EdgeCount
  | LARGE : EdgeCount
  | ANY : EdgeCount
deriving DecidableEq, Repr

instance : Fintype EdgeType :=
  ⟨⟨{.THICK, .SPACE, .CROSS}, by decide⟩, by intro x; cases x <;> decide⟩

instance : Fintype EdgeCount :=
  ⟨⟨{.ZERO, .ONE, .TWO, .EVEN, .SMALL, .LARGE, .ANY}, by decide⟩,
    by intro x; cases x <;> decide⟩

namespace EdgeType

/-- `_EDGE_TYPE_ADD_TABLE` + `EdgeType.add` from `src/edge_count.py`.
The table is total on the 9 ordered pairs. -/
def add : EdgeType → EdgeType → EdgeCount
  | .CROSS, .CROSS => .ZERO
  | .CROSS, .THICK => .ONE
  | .THICK, .CROSS => .ONE
  | .THICK, .THICK => .TWO
  | .SPACE, .SPACE => .ANY
  | .SPACE, .THICK => .LARGE
  | .THICK, .SPACE => .LARGE
  | .SPACE, .CROSS => .SMALL
  | .CROSS, .SPACE => .SMALL

end EdgeType

/-- `EdgeType.add` lifted to the values actually flowing through
`deduce_from_corner`: a `None` edge value on either side is a method
call / attribute access on `None` in Python (`AttributeError`). -/
def addE : Option EdgeType → Option EdgeType → Except Err EdgeCount
  | some a, some b => .ok (a.add b)
  | _, _ => .error .attributeError

namespace EdgeCount

/-- `_EC_TO_SET` from `src/edge_count.py`. -/
def to_set : EdgeCount → Finset ℕ
  | .ZERO => {0}
  | .ONE => {1}
  | .TWO => {2}
  | .EVEN => {0, 2}
  | .SMALL => {0, 1}
  | .LARGE => {1, 2}
  | .ANY => {0, 1, 2}

/-- `_SET_TO_EC` / `EdgeCount._from_set` from `src/edge_count.py`:
the partial inverse of `to_set` (`None` on any set not in the table,
in particular on the empty set). -/
def from_set (s : Finset ℕ) : Option EdgeCount :=
  if s = {0} then some .ZERO
  else if s = {1} then some .ONE
  else if s = {2} then some .TWO
  else if s = {0, 2} then some .EVEN
  else if s = {0, 1} then some .SMALL
  else if s = {1, 2} then some .LARGE
  else if s = {0, 1, 2} then some .ANY
  else none

/-- `EdgeCount.intersect` from `src/edge_count.py`. -/
def intersect (a b : EdgeCount) : Option EdgeCount :=
  from_set (a.to_set ∩ b.to_set)

/-- `EdgeCount.subtract` from `src/edge_count.py`.  `ZERO` and `TWO`
short-circuit; the remaining cases index `_SUBTRACT_TABLE[self.name]`,
which has rows only for `ONE`, `EVEN`, `SMALL`, `LARGE` — for `ANY`
the Python lookup raises `KeyError`.  The inner `.get(edge_type, None)`
tolerates any key (including `None`), returning `None` on a miss.
The argument is `Option EdgeType` because `deduce_from_corner` passes
values read with `dict.get` that can be a stored `None`. -/
def subtract : EdgeCount → Option EdgeType → Except Err (Option EdgeType)
  | .ZERO, _ => .ok (some .CROSS)
  | .TWO, _ => .ok (some .THICK)
  | .ONE, some .THICK => .ok (some .CROSS)
  | .ONE, some .CROSS => .ok (some .THICK)
  | .ONE, _ => .ok none
  | .EVEN, some .THICK => .ok (some .THICK)
  | .EVEN, some .CROSS => .ok (some .CROSS)
  | .EVEN, _ => .ok none
  | .SMALL, some .THICK => .ok (some .CROSS)
  | .SMALL, _ => .ok none
  | .LARGE, some .CROSS => .ok (some .THICK)
  | .LARGE, _ => .ok none
  | .ANY, _ => .error .keyError

/-- Row `1` of `_SUBTRACT_BY_TABLE` from `src/edge_count.py`. -/
def sub1 : EdgeCount → Option EdgeCount
  | .ZERO => some .ONE
  | .ONE => some .ZERO
  | .TWO => none
  | .EVEN => some .ONE
  | .SMALL => some .SMALL
  | .LARGE => some .ZERO
  | .ANY => some .SMALL

/-- Row `2` of `_SUBTRACT_BY_TABLE` from `src/edge_count.py`
(this row has no `None` entry). -/
def sub2 : EdgeCount → EdgeCount
  | .ZERO => .TWO
  | .ONE => .ONE
  | .TWO => .ZERO
  | .EVEN => .EVEN
  | .SMALL => .LARGE
  | .LARGE => .SMALL
  | .ANY => .ANY

/-- Row `3` of `_SUBTRACT_BY_TABLE` from `src/edge_count.py`. -/
def sub3 : EdgeCount → Option EdgeCount
  | .ZERO => none
  | .ONE => some .TWO
  | .TWO => some .ONE
  | .EVEN => some .ONE
  | .SMALL => some .TWO
  | .LARGE => some .LARGE
  | .ANY => some .LARGE

/-- `EdgeCount.subtract_by` from `src/edge_count.py`: `ValueError`
outside {1,2,3}, table lookup (possibly `None`) otherwise. -/
def subtract_by (ec : EdgeCount) (num : ℤ) : Except Err (Option EdgeCount) :=
  if num = 1 then .ok (sub1 ec)
  else if num = 2 then .ok (some (sub2 ec))
  else if num = 3 then .ok (sub3 ec)
  else .error .valueError

/-- `EdgeCount.flip` from `src/edge_count.py`: `ZERO → EVEN`,
`SMALL → ANY`, otherwise `subtract_by 2` (row 2 of the table, which is
total, so `flip` never raises and never yields `None`). -/
def flip : EdgeCount → EdgeCount
  | .ZERO => .EVEN
  | .SMALL => .ANY
  | e => sub2 e

end EdgeCount

/-- `Direction` from `src/sudoku/pos.py`. -/
inductive Direction where
  | UP | DOWN | LEFT | RIGHT
  | UP_LEFT | UP_RIGHT | DOWN_LEFT | DOWN_RIGHT
deriving DecidableEq, Repr

/-- `Kind` from `src/sudoku/pos.py`. -/
inductive Kind where
  | VERTEX | ENTRY | EDGE
deriving DecidableEq, Repr

namespace Direction

/-- `_DIRECTION_TO_DELTA` / `Direction.to_delta` from `src/sudoku/pos.py`. -/
def to_delta : Direction → ℤ × ℤ
  | .UP => (-1, 0)
  | .DOWN => (1, 0)
  | .LEFT => (0, -1)
  | .RIGHT => (0, 1)
  | .UP_LEFT => (-1, -1)
  | .UP_RIGHT => (-1, 1)
  | .DOWN_LEFT => (1, -1)
  | .DOWN_RIGHT => (1, 1)

/-- `_DIRECTION_ROTATE_ORDER`: index of a direction in the 8-cycle. -/
def idx : Direction → ℤ
  | .UP_LEFT => 0
  | .UP => 1
  | .UP_RIGHT => 2
  | .RIGHT => 3
  | .DOWN_RIGHT => 4
  | .DOWN => 5
  | .DOWN_LEFT => 6
  | .LEFT => 7

/-- Inverse of `idx`, on representatives of residues mod 8 (the Python
code computes `(idx + step) % 8`, which is non-negative). -/
def ofIdx (n : ℤ) : Direction :=
  if n = 0 then .UP_LEFT
  else if n = 1 then .UP
  else if n = 2 then .UP_RIGHT
  else if n = 3 then .RIGHT
  else if n = 4 then .DOWN_RIGHT
  else if n = 5 then .DOWN
  else if n = 6 then .DOWN_LEFT
  else .LEFT

/-- `Direction.rotate` from `src/sudoku/pos.py`: advance `step`
positions along the rotate order, modulo 8 (Python `%` on `int` is
`Int.emod`, always non-negative here). -/
def rotate (d : Direction) (step : ℤ) : Direction :=
  ofIdx ((d.idx + step) % 8)

/-- `_DIRECTION_OPPOSITE` / `Direction.opposite` from `src/sudoku/pos.py`. -/
def opposite : Direction → Direction
  | .UP => .DOWN
  | .DOWN => .UP
  | .LEFT => .RIGHT
  | .RIGHT => .LEFT
  | .UP_LEFT => .DOWN_RIGHT
  | .UP_RIGHT => .DOWN_LEFT
  | .DOWN_LEFT => .UP_RIGHT
  | .DOWN_RIGHT => .UP_LEFT

/-- `Direction.diagonals()` from `src/sudoku/pos.py`.  The Python
function returns a `set`; the embedding fixes the declaration order of
`_DIRECTION_DIAGONALS` as the iteration order. -/
def diagonals : List Direction := [.UP_LEFT, .UP_RIGHT, .DOWN_LEFT, .DOWN_RIGHT]

/-- `Direction.orthogonals()` from `src/sudoku/pos.py`, with the
declaration order of `_DIRECTION_ORTHOGONALS` as iteration order. -/
def orthogonals : List Direction := [.UP, .DOWN, .LEFT, .RIGHT]

end Direction

/-- `Position` from `src/sudoku/pos.py`. -/
structure Position where
  x : ℤ
  y : ℤ
deriving DecidableEq, Repr

namespace Position

/-- `Position.move` from `src/sudoku/pos.py` (default distance 1 is
written out at call sites). -/
def move (p : Position) (d : Direction) (distance : ℤ) : Position :=
  ⟨p.x + d.to_delta.1 * distance, p.y + d.to_delta.2 * distance⟩

/-- `Position.neighbors` from `src/sudoku/pos.py`: up, down, left,
right, in the order of the list literal. -/
def neighbors (p : Position) : List Position :=
  [⟨p.x - 1, p.y⟩, ⟨p.x + 1, p.y⟩, ⟨p.x, p.y - 1⟩, ⟨p.x, p.y + 1⟩]

/-- `Position.kind` from `src/sudoku/pos.py`.  Python `%` on negative
ints agrees with `Int.emod`. -/
def kind (p : Position) : Kind :=
  if p.x % 2 = 0 ∧ p.y % 2 = 0 then .VERTEX
  else if p.x % 2 = 1 ∧ p.y % 2 = 1 then .ENTRY
  else .EDGE

/-- `Position.common_neighbors` from `src/sudoku/pos.py`.  The Python
function iterates over the direction sets and returns on the first
match; at most one orthogonal and at most one diagonal direction can
match, so iteration order is immaterial and `List.find?` over the fixed
order is a faithful rendering.  The Python result is a `set` of at most
two (distinct) positions; the embedding returns the list in insertion
order. -/
def common_neighbors (a b : Position) : List Position :=
  match Direction.orthogonals.find? (fun d => a.move d 2 = b) with
  | some d => [a.move d 1]
  | none =>
    match Direction.diagonals.find? (fun d => a.move d 1 = b) with
    | some d => [a.move (d.rotate 1) 1, a.move (d.rotate (-1)) 1]
    | none => []

end Position

/-- A pending deduction on the command stack: `src/sudoku/sudoku.py`
stores bound methods with their arguments; only these four are ever
enqueued. -/
inductive Command where
  | dedVertex (p : Position)
  | dedEntry (p : Position)
  | dedCorner (p : Position) (d : Direction)
  | propDiag (p : Position) (d : Direction)
deriving DecidableEq, Repr

/-- The mutable state of `Sudoku` from `src/sudoku/sudoku.py`.

* `edge p = none` — key absent; `edge p = some v` — key present with
  value `v`, where `v : Option EdgeType` because `deduce_from_corner`
  can pass `None` to `set_edge`, which stores it.
* `entry` is an association list in insertion order (it is never
  written after `__init__`).
* `commandStack` holds the top of the Python list (its end) at the
  head. -/
structure Sudoku where
  h : ℕ
  w : ℕ
  entry : List (Position × ℤ)
  edge : Position → Option (Option EdgeType)
  edgeCount : Position × Direction → Option EdgeCount
  connected : List (Finset Position)
  commandStack : List Command

/-- `self.entry.get(pos)`: first binding of `pos` in the association
list (keys are unique by construction). -/
def Sudoku.entryGet (s : Sudoku) (p : Position) : Option ℤ :=
  (s.entry.find? (fun q => q.1 = p)).map (·.2)

/-- The state-and-exception monad of the embedding: a Python method
either returns a value or raises, and in both cases the mutations it
already performed on `self` persist. -/
def M (α : Type) : Type := Sudoku → Except Err α × Sudoku

namespace M

def pure' (a : α) : M α := fun s => (.ok a, s)

def bind' (x : M α) (f : α → M β) : M β := fun s =>
  match x s with
  | (.ok a, s') => f a s'
  | (.error e, s') => (.error e, s')

instance : Monad M where
  pure := pure'
  bind := bind'

/-- Read the current state. -/
def getS : M Sudoku := fun s => (.ok s, s)

/-- Apply a pure update to the state. -/
def modifyS (f : Sudoku → Sudoku) : M Unit := fun s => (.ok (), f s)

/-- Raise an exception. -/
def throwE (e : Err) : M α := fun s => (.error e, s)

/-- Evaluate a pure computation that may raise. -/
def liftE (r : Except Err α) : M α := fun s => (r, s)

/-- A Python `for` loop running a stateful body over a list. -/
def mfor (l : List α) (body : α → M Unit) : M Unit :=
  match l with
  | [] => pure ()
  | a :: rest => bind' (body a) (fun _ => mfor rest body)

end M

export M (getS modifyS throwE liftE mfor)

/-- `self.add_command(func, *args)` from `src/sudoku/sudoku.py`:
push onto the stack. -/
def addCommand (c : Command) : M Unit :=
  modifyS (fun s => { s with commandStack := c :: s.commandStack })

/-- `grid[i][j]` as a partial lookup (the code assumes a rectangular
grid; a ragged access would raise `IndexError`). -/
def gridGet (grid : List (List ℤ)) (i j : ℕ) : Option ℤ :=
  (grid[i]?).bind (fun row => row[j]?)

/-- `Sudoku.__init__` from `src/sudoku/sudoku.py`.  The three
initialization loops are rendered as: the `entry` association list in
loop order; the `edge` map as the function holding `SPACE` exactly at
the in-lattice `EDGE`-kind positions; the `edge_count` map as the
function holding `ANY` exactly at (entry key, diagonal direction)
pairs. -/
def Sudoku.init (grid : List (List ℤ)) : Sudoku :=
  let h := grid.length
  let w := match grid with
    | [] => 0
    | row :: _ => row.length
  let entry : List (Position × ℤ) :=
    (List.range h).flatMap (fun i =>
      (List.range w).filterMap (fun j =>
        match gridGet grid i j with
        | some v =>
          if v = 0 ∨ v = 1 ∨ v = 2 ∨ v = 3 then
            some (⟨2 * (i : ℤ) + 1, 2 * (j : ℤ) + 1⟩, v)
          else none
        | none => none))
  { h := h
    w := w
    entry := entry
    edge := fun p =>
      if 0 ≤ p.x ∧ p.x < 2 * (h : ℤ) + 1 ∧ 0 ≤ p.y ∧ p.y < 2 * (w : ℤ) + 1
          ∧ p.kind = Kind.EDGE
      then some (some .SPACE) else none
    edgeCount := fun k =>
      if ((entry.find? (fun q => q.1 = k.1)).map (·.2)).isSome
          ∧ k.2 ∈ Direction.diagonals
      then some .ANY else none
    connected := []
    commandStack := [] }

/-! ## Mutators -/

/-- A strict-weak order on positions used only to pick the iteration
order when Python unpacks a 2-element `set` (`pos1, pos2 =
tuple(set1)`); `common_neighbors` is symmetric in its two arguments, so
the choice is observationally irrelevant. -/
def posLe (a b : Position) : Prop :=
  a.x < b.x ∨ (a.x = b.x ∧ a.y ≤ b.y)

instance : DecidableRel posLe := fun a b => by
  unfold posLe; infer_instance

instance : IsTotal Position posLe :=
  ⟨by intro a b; unfold posLe; omega⟩

instance : IsTrans Position posLe :=
  ⟨by intro a b c; unfold posLe; omega⟩

instance : IsAntisymm Position posLe :=
  ⟨by intro a b h1 h2; unfold posLe at *
      cases a; cases b; simp_all; omega⟩

/-- `pos1, pos2 = tuple(set1)` on a list of elements: succeeds exactly
on 2-element collections (otherwise Python raises `ValueError`). -/
def twoElemsL (l : List Position) : Option (Position × Position) :=
  match l.insertionSort posLe with
  | [a, b] => some (a, b)
  | _ => none

theorem twoElemsL_perm {l₁ l₂ : List Position} (h : l₁.Perm l₂) :
    twoElemsL l₁ = twoElemsL l₂ := by
  unfold twoElemsL
  have e : l₁.insertionSort posLe = l₂.insertionSort posLe :=
    List.eq_of_perm_of_sorted
      (((List.perm_insertionSort posLe l₁).trans h).trans
        (List.perm_insertionSort posLe l₂).symm)
      (List.sorted_insertionSort posLe l₁)
      (List.sorted_insertionSort posLe l₂)
  rw [e]

/-- `pos1, pos2 = tuple(set1)` on a `Finset`. -/
def twoElems (c : Finset Position) : Option (Position × Position) :=
  Quot.liftOn c.val twoElemsL (fun _ _ h => twoElemsL_perm h)

/-- `self.edge[pos] = edge_type` (plain dictionary store). -/
def storeEdge (pos : Position) (et : Option EdgeType) : M Unit :=
  modifyS (fun s =>
    { s with edge := fun q => if q = pos then some et else s.edge q })

/-- The positions whose edge values `Sudoku.display` reads: for even
rows it calls `self.edge.get(Position(i, j)).to_str(...)` at the odd
columns, for odd rows at the even columns, over the `total_size`
lattice (these are exactly the in-lattice `EDGE`-kind positions).
The entry cells (odd row, odd column) are drawn by `_draw_entry`,
which uses defaulted `get`s and `str(...)` only and cannot raise. -/
def displayReads (s : Sudoku) : List Position :=
  (List.range (2 * s.h + 1)).flatMap (fun i =>
    (List.range (2 * s.w + 1)).filterMap (fun j =>
      if i % 2 = 0 then
        if j % 2 = 0 then none else some ⟨(i : ℤ), (j : ℤ)⟩
      else
        if j % 2 = 0 then some ⟨(i : ℤ), (j : ℤ)⟩ else none))

/-- `Sudoku.display` raises (`AttributeError`, from `None.to_str`)
exactly when some edge value it reads is `None` — either the key is
absent (`dict.get` without default) or the stored value is a `None`
written by `set_edge` via `deduce_from_corner`.  Otherwise `display`
only prints. -/
def displayRaises (s : Sudoku) : Prop :=
  ∃ p ∈ displayReads s, s.edge p = none ∨ s.edge p = some none

instance (s : Sudoku) : Decidable (displayRaises s) := by
  unfold displayRaises
  infer_instance

/-- `Sudoku.set_edge_count` from `src/sudoku/sudoku.py`.  The `ec?`
argument is an `Option` because `deduce_from_corner` and
`propagate_diagonal` can pass `None` (then `intersect` calls
`None.to_set()`: `AttributeError`).  On an empty intersection the code
first calls `self.display()`: when `display` itself raises
(`displayRaises`), that `AttributeError` propagates instead of the
contradiction `ValueError`; printing is otherwise effect-free. -/
def set_edge_count (pos : Position) (d : Direction) (ec? : Option EdgeCount) :
    M Bool := fun s =>
  let curr := (s.edgeCount (pos, d)).getD .ANY
  match ec? with
  | none => (.error .attributeError, s)
  | some ec =>
    match curr.intersect ec with
    | none =>
      if displayRaises s then (.error .attributeError, s)
      else (.error .valueError, s)
    | some newEc =>
      if curr ≠ newEc then
        (.ok true,
          { s with
            edgeCount := fun k => if k = (pos, d) then some newEc else s.edgeCount k
            commandStack := Command.dedCorner pos d ::
              Command.propDiag pos d.opposite :: s.commandStack })
      else (.ok false, s)

/-- The neighbor loop in `Sudoku.set_edge`: per orthogonal direction,
collect `VERTEX` neighbors into `neighbor_vertex` and enqueue the
follow-up deductions (`deduce_from_vertex` for a vertex;
`deduce_from_entry` plus the two adjacent `deduce_from_corner`s for an
entry). -/
def seLoop (pos : Position) : List Direction → Finset Position → M (Finset Position)
  | [], acc => pure acc
  | d :: rest, acc => do
    let np := pos.move d 1
    if np.kind = .VERTEX then do
      addCommand (.dedVertex np)
      seLoop pos rest (insert np acc)
    else if np.kind = .ENTRY then do
      addCommand (.dedEntry np)
      addCommand (.dedCorner np (d.rotate 3))
      addCommand (.dedCorner np (d.rotate (-3)))
      seLoop pos rest acc
    else
      seLoop pos rest acc

/-- The body of `Sudoku.set_edge` without the final
`deduce_from_connected` call (which only happens for `THICK`): guard,
store, neighbor loop.  Returns (changed, neighbor_vertex).
`self.edge.get(pos, -1) == EdgeType.SPACE` is true exactly when the key
is present with value `SPACE`. -/
def setEdgeNC (pos : Position) (et : Option EdgeType) : M (Bool × Finset Position) := do
  let s ← getS
  if s.edge pos = some (some .SPACE) ∧ et ≠ some .SPACE then do
    storeEdge pos et
    let nv ← seLoop pos Direction.orthogonals ∅
    pure (true, nv)
  else
    pure (false, (∅ : Finset Position))

/-- The `for set2 in self.connected` search in `deduce_from_connected`:
first component sharing exactly one position with `set1`, together with
the list with that component removed (`self.connected.remove(set2)`
removes the first occurrence equal to `set2`; any earlier duplicate
would itself have intersection of size one and be found first, so
removing at the found index is faithful). -/
def findMerge (set1 : Finset Position) :
    List (Finset Position) → Option (Finset Position × List (Finset Position))
  | [] => none
  | c :: rest =>
    if (set1 ∩ c).card = 1 then some (c, rest)
    else
      match findMerge set1 rest with
      | some (c', rest') => some (c', c :: rest')
      | none => none

theorem findMerge_length {set1 : Finset Position} :
    ∀ {l : List (Finset Position)} {c rem},
      findMerge set1 l = some (c, rem) → rem.length < l.length := by
  intro l
  induction l with
  | nil => intro c rem h; simp [findMerge] at h
  | cons a rest ih =>
    intro c rem h
    simp only [findMerge] at h
    split at h
    · cases h; simp
    · revert h
      split
      · next c' rest' heq =>
        intro h
        cases h
        have := ih heq
        simp [List.length_cons]
        omega
      · intro h; cases h

/-- One iteration of the crossing loop at the end of
`deduce_from_connected`: cross out a still-`SPACE` bridging edge when
more than one component remains.  The recursive
`self.set_edge(edge_pos, CROSS)` call cannot re-enter
`deduce_from_connected` (its edge type is not `THICK`), so it is
rendered by `setEdgeNC`; the lemma `set_edge_cross_eq` below
establishes the equivalence. -/
def crossLoopBody (e : Position) : M Unit := do
  let s' ← getS
  if s'.edge e = some (some .SPACE) then
    if s'.connected.length > 1 then do
      let _ ← setEdgeNC e (some .CROSS)
      pure ()
    else pure ()
  else pure ()

/-- `for edge_pos in pos1.common_neighbors(pos2): ...` in
`deduce_from_connected`. -/
def crossLoop (l : List Position) : M Unit := mfor l crossLoopBody

/-- The tail of `deduce_from_connected` once no component shares
exactly one position with `set1`: append `set1`, unpack its two
endpoints (`ValueError` unless the set has exactly two elements), and
run the crossing loop over their common neighbors. -/
def dfcAppend (set1 : Finset Position) : M Unit := do
  modifyS (fun s' => { s' with connected := s'.connected ++ [set1] })
  match twoElems set1 with
  | none => throwE .valueError
  | some (p1, p2) => crossLoop (p1.common_neighbors p2)

set_option linter.unusedVariables false in
/-- `Sudoku.deduce_from_connected` from `src/sudoku/sudoku.py`:
the recursive merge loop, then `dfcAppend`. -/
def deduce_from_connected (set1 : Finset Position) (s : Sudoku) :
    Except Err Unit × Sudoku :=
  match h : findMerge set1 s.connected with
  | some (c, rem) =>
    deduce_from_connected ((set1 ∪ c) \ (set1 ∩ c)) { s with connected := rem }
  | none => dfcAppend set1 s
termination_by s.connected.length
decreasing_by
  exact findMerge_length h

/-- `Sudoku.set_edge` from `src/sudoku/sudoku.py`. -/
def set_edge (pos : Position) (et : Option EdgeType) : M Bool := do
  let r ← setEdgeNC pos et
  if r.1 ∧ et = some .THICK then do
    deduce_from_connected r.2
    pure true
  else
    pure r.1

/-! ## Deduction rules and scheduler -/

/-- `self.edge.get(pos1, EdgeType.CROSS)` in `deduce_from_corner`:
absent key defaults to `CROSS`; a present key can still hold a stored
`None`. -/
def Sudoku.edgeGetD (s : Sudoku) (p : Position) : Option EdgeType :=
  match s.edge p with
  | none => some .CROSS
  | some v => v

/-- The clue-dependent middle step of `deduce_from_corner`
(`entry_num = self.entry.get(pos, -1); if entry_num in (1, 2, 3): ...`),
factored out so that the surrounding method is a straight-line
sequence. -/
def dedCornerEntryStep (pos : Position) (d : Direction) (newEc : EdgeCount) :
    M Unit := do
  let s' ← getS
  let entryNum := (s'.entryGet pos).getD (-1)
  if entryNum = 1 ∨ entryNum = 2 ∨ entryNum = 3 then do
    let ecBack ← liftE (newEc.subtract_by entryNum)
    let _ ← set_edge_count pos d.opposite ecBack
    pure ()
  else pure ()

/-- `Sudoku.deduce_from_corner` from `src/sudoku/sudoku.py`. -/
def deduce_from_corner (pos : Position) (d : Direction) : M Unit := do
  let s ← getS
  let ec := (s.edgeCount (pos, d)).getD .ANY
  let pos1 := pos.move (d.rotate (-1)) 1
  let pos2 := pos.move (d.rotate 1) 1
  let edge1 := s.edgeGetD pos1
  let edge2 := s.edgeGetD pos2
  let newEc ← liftE (addE edge1 edge2)
  let newEdge1 ← liftE (ec.subtract edge2)
  let newEdge2 ← liftE (ec.subtract edge1)
  let _ ← set_edge_count pos d (some newEc)
  let _ ← set_edge pos1 newEdge1
  let _ ← set_edge pos2 newEdge2
  dedCornerEntryStep pos d newEc
  let nextPos := pos.move d 2
  let ecNext := newEc.flip
  let _ ← set_edge_count nextPos d.opposite (some ecNext)
  pure ()

/-- The `dct` partition in `deduce_from_vertex` / `deduce_from_entry`:
the neighbor positions whose edge entry is present and equals `t`
(`if edge:` skips both absent keys and stored `None`s, which are
falsy). -/
def edgeClass (s : Sudoku) (pos : Position) (t : EdgeType) : List Position :=
  pos.neighbors.filter (fun q => s.edge q = some (some t))

/-- `Sudoku.deduce_from_vertex` from `src/sudoku/sudoku.py`. -/
def deduce_from_vertex (pos : Position) : M Unit := do
  let s ← getS
  let thickL := edgeClass s pos .THICK
  let spaceL := edgeClass s pos .SPACE
  if thickL.length = 2 then
    mfor spaceL (fun e => do let _ ← set_edge e (some .CROSS); pure ())
  else if thickL.length = 1 ∧ spaceL.length = 1 then
    mfor spaceL (fun e => do let _ ← set_edge e (some .THICK); pure ())
  else if thickL.length = 0 ∧ spaceL.length = 1 then
    mfor spaceL (fun e => do let _ ← set_edge e (some .CROSS); pure ())
  else pure ()

/-- `Sudoku.deduce_from_entry` from `src/sudoku/sudoku.py`. -/
def deduce_from_entry (pos : Position) : M Unit := do
  let s ← getS
  match s.entryGet pos with
  | none => pure ()
  | some entryNum =>
    let thickL := edgeClass s pos .THICK
    let spaceL := edgeClass s pos .SPACE
    if (thickL.length : ℤ) = entryNum then
      mfor spaceL (fun e => do let _ ← set_edge e (some .CROSS); pure ())
    else if (thickL.length : ℤ) + spaceL.length = entryNum then
      mfor spaceL (fun e => do let _ ← set_edge e (some .THICK); pure ())
    else pure ()

/-- `Sudoku.propagate_diagonal` from `src/sudoku/sudoku.py`.  Note
`self.edge_count.get((pos, direction.opposite()))` has no default: a
missing key yields `None` and the following `subtract_by` call raises
`AttributeError`. -/
def propagate_diagonal (pos : Position) (d : Direction) : M Unit := do
  let s ← getS
  let entryNum := (s.entryGet pos).getD (-1)
  if entryNum = 1 ∨ entryNum = 2 ∨ entryNum = 3 then
    match s.edgeCount (pos, d.opposite) with
    | none => throwE .attributeError
    | some ec0 => do
      let ec1? ← liftE (ec0.subtract_by entryNum)
      match ec1? with
      | none => do
        let _ ← set_edge_count pos d none
        pure ()
      | some ec1 => do
        let _ ← set_edge_count pos d (some ec1)
        let ec2 := ec1.flip
        let _ ← set_edge_count (pos.move d 2) d.opposite (some ec2)
        pure ()
  else pure ()

/-- `Sudoku.deduce_from_3` from `src/sudoku/sudoku.py`. -/
def deduce_from_3 (pos : Position) : M Unit :=
  mfor [Direction.DOWN, Direction.RIGHT] (fun d => do
    let s ← getS
    if s.entryGet (pos.move d 2) = some 3 then do
      let mid := pos.move d 1
      let od := d.rotate 2
      let _ ← set_edge mid (some .THICK)
      let _ ← set_edge (mid.move d 2) (some .THICK)
      let _ ← set_edge (mid.move d (-2)) (some .THICK)
      let _ ← set_edge (mid.move od 2) (some .CROSS)
      let _ ← set_edge (mid.move od (-2)) (some .CROSS)
      pure ()
    else pure ())

/-- Dispatch of a stored command (the bound method calls popped by
`run_next_command`). -/
def runCommand : Command → M Unit
  | .dedVertex p => deduce_from_vertex p
  | .dedEntry p => deduce_from_entry p
  | .dedCorner p d => deduce_from_corner p d
  | .propDiag p d => propagate_diagonal p d

/-- `Sudoku.run_next_command` from `src/sudoku/sudoku.py`. -/
def run_next_command : M Unit := fun s =>
  match s.commandStack with
  | [] => (.ok (), s)
  | c :: rest => runCommand c { s with commandStack := rest }

/-- `Sudoku.run_all_commands` from `src/sudoku/sudoku.py`.  The Python
`while` loop carries no termination proof; the embedding supplies
explicit fuel, stopping when it runs out — all claims proved about it
hold for every fuel value. -/
def run_all_commands : ℕ → M Unit
  | 0 => pure ()
  | n + 1 => fun s =>
    match s.commandStack with
    | [] => (.ok (), s)
    | _ => (M.bind' run_next_command (fun _ => run_all_commands n)) s

/-- `Sudoku.solve` from `src/sudoku/sudoku.py`: the seeding loops over
the grid cells in row-major order, then `run_all_commands` (with
fuel). -/
def solve (fuel : ℕ) : M Unit := do
  let s0 ← getS
  mfor ((List.range s0.h).flatMap (fun i => (List.range s0.w).map (fun j => (i, j))))
    (fun ij => do
      let pos : Position := ⟨2 * (ij.1 : ℤ) + 1, 2 * (ij.2 : ℤ) + 1⟩
      let s ← getS
      let entryNum := (s.entryGet pos).getD (-1)
      if entryNum = 3 then do
        deduce_from_3 pos
        mfor Direction.diagonals (fun d => addCommand (.dedCorner pos d))
      else if entryNum = 0 then
        addCommand (.dedEntry pos)
      else pure ())
  run_all_commands fuel

/-- The number of `THICK` neighbors of an entry, as counted by
`validate_solution`. -/
def thickCount (s : Sudoku) (pos : Position) : ℕ :=
  (pos.neighbors.filter (fun q => s.edge q = some (some .THICK))).length

/-- The per-entry clue check loop of `validate_solution`. -/
def validateEntries (s : Sudoku) : List (Position × ℤ) → Except Err Unit
  | [] => .ok ()
  | (pos, num) :: rest =>
    if (thickCount s pos : ℤ) ≠ num then .error .valueError
    else validateEntries s rest

/-- `Sudoku.validate_solution` from `src/sudoku/sudoku.py`: raises
(`ValueError`) unless the component list has exactly two equal
entries and every entry's `THICK`-neighbor count equals its clue.
It never mutates the board. -/
def validate_solution (s : Sudoku) : Except Err Unit :=
  if s.connected.length ≠ 2 ∨ s.connected[0]? ≠ s.connected[1]? then
    .error .valueError
  else validateEntries s s.entry

/-- The operations named by the monotonicity claim: the two mutators,
the six deduction rules, and `solve` (with its scheduler fuel). -/
inductive Op where
  | opSetEdge (p : Position) (et : Option EdgeType)
  | opSetEdgeCount (p : Position) (d : Direction) (ec : Option EdgeCount)
  | opDedCorner (p : Position) (d : Direction)
  | opDedVertex (p : Position)
  | opDedEntry (p : Position)
  | opPropDiag (p : Position) (d : Direction)
  | opDed3 (p : Position)
  | opDedConn (c : Finset Position)
  | opSolve (fuel : ℕ)

/-- Run one operation (discarding its returned value). -/
def applyOp : Op → M Unit
  | .opSetEdge p et => do let _ ← set_edge p et; pure ()
  | .opSetEdgeCount p d ec => do let _ ← set_edge_count p d ec; pure ()
  | .opDedCorner p d => deduce_from_corner p d
  | .opDedVertex p => deduce_from_vertex p
  | .opDedEntry p => deduce_from_entry p
  | .opPropDiag p d => propagate_diagonal p d
  | .opDed3 p => deduce_from_3 p
  | .opDedConn c => fun s => deduce_from_connected c s
  | .opSolve fuel => solve fuel

/-- Run a sequence of operations; an uncaught exception aborts the
rest of the sequence (as it would abort a Python program), keeping the
state mutated so far. -/
def runOps : List Op → Sudoku → Sudoku
  | [], s => s
  | op :: rest, s =>
    match applyOp op s with
    | (.ok _, s') => runOps rest s'
    | (.error _, s') => s'

/-! ## Monotonicity -/

/-- The refinement preorder between board states: every present edge
entry other than `SPACE` is preserved verbatim, and every corner count
(with the absent-key default `ANY`) only shrinks as a subset of
{0,1,2}. -/
def Mono (s s' : Sudoku) : Prop :=
  (∀ p v, s.edge p = some v → v ≠ some EdgeType.SPACE → s'.edge p = some v) ∧
  (∀ k, ((s'.edgeCount k).getD .ANY).to_set ⊆ ((s.edgeCount k).getD .ANY).to_set)

theorem Mono.refl (s : Sudoku) : Mono s s :=
  ⟨fun _ _ h _ => h, fun _ => le_refl _⟩

theorem Mono.trans {s1 s2 s3 : Sudoku} (h12 : Mono s1 s2) (h23 : Mono s2 s3) :
    Mono s1 s3 :=
  ⟨fun p v hv hns => h23.1 p v (h12.1 p v hv hns) hns,
   fun k => (h23.2 k).trans (h12.2 k)⟩

/-- Updates that do not touch `edge` or `edgeCount` are monotone. -/
theorem Mono.of_eq {s s' : Sudoku} (he : s'.edge = s.edge)
    (hc : s'.edgeCount = s.edgeCount) : Mono s s' :=
  ⟨fun p v hv _ => by rw [he]; exact hv, fun k => by rw [hc]⟩

/-- A stateful computation whose final state refines its initial
state, whether or not it raises. -/
def Preserves (m : M α) : Prop := ∀ s, Mono s (m s).2

theorem bind_eq (x : M α) (f : α → M β) : x >>= f = M.bind' x f := rfl

theorem pure_eq (a : α) : (pure a : M α) = M.pure' a := rfl

theorem monoBind {x : M α} {f : α → M β} (hx : Preserves x)
    (hf : ∀ a, Preserves (f a)) : Preserves (x >>= f) := by
  intro s
  rw [bind_eq]
  unfold M.bind'
  match hxs : x s with
  | (.ok a, s') =>
    have h1 : Mono s s' := by have := hx s; rwa [hxs] at this
    exact h1.trans (hf a s')
  | (.error e, s') =>
    have h1 : Mono s s' := by have := hx s; rwa [hxs] at this
    exact h1

theorem monoPure (a : α) : Preserves (pure (f := M) a) := fun s => Mono.refl s

theorem monoGetS : Preserves getS := fun s => Mono.refl s

theorem monoThrowE (e : Err) : Preserves (throwE (α := α) e) :=
  fun s => Mono.refl s

theorem monoLiftE (r : Except Err α) : Preserves (liftE r) :=
  fun s => Mono.refl s

theorem monoAddCommand (c : Command) : Preserves (addCommand c) :=
  fun _ => Mono.of_eq rfl rfl

theorem monoMfor {l : List α} {body : α → M Unit}
    (hb : ∀ a, Preserves (body a)) : Preserves (mfor l body) := by
  induction l with
  | nil => exact fun s => Mono.refl s
  | cons a rest ih =>
    intro s
    show Mono s ((M.bind' (body a) (fun _ => mfor rest body)) s).2
    have : M.bind' (body a) (fun _ => mfor rest body)
        = (body a) >>= (fun _ => mfor rest body) := rfl
    rw [this]
    exact monoBind (hb a) (fun _ => ih) s

theorem monoSeLoop (pos : Position) (l : List Direction)
    (acc : Finset Position) : Preserves (seLoop pos l acc) := by
  induction l generalizing acc with
  | nil => exact fun s => Mono.refl s
  | cons d rest ih =>
    intro s
    show Mono s ((if (pos.move d 1).kind = Kind.VERTEX then do
        addCommand (.dedVertex (pos.move d 1))
        seLoop pos rest (insert (pos.move d 1) acc)
      else if (pos.move d 1).kind = Kind.ENTRY then do
        addCommand (.dedEntry (pos.move d 1))
        addCommand (.dedCorner (pos.move d 1) (d.rotate 3))
        addCommand (.dedCorner (pos.move d 1) (d.rotate (-3)))
        seLoop pos rest acc
      else seLoop pos rest acc) s).2
    split
    · exact (monoBind (monoAddCommand _) (fun _ => ih _)) s
    · split
      · exact (monoBind (monoAddCommand _) (fun _ =>
          monoBind (monoAddCommand _) (fun _ =>
          monoBind (monoAddCommand _) (fun _ => ih _)))) s
      · exact ih _ s

theorem intersect_to_set_subset :
    ∀ a b c : EdgeCount, a.intersect b = some c → c.to_set ⊆ a.to_set := by
  decide

theorem monoSetEdgeCount (pos : Position) (d : Direction)
    (ec? : Option EdgeCount) : Preserves (set_edge_count pos d ec?) := by
  intro s
  cases ec? with
  | none => exact Mono.refl s
  | some ec =>
    show Mono s ((match ((s.edgeCount (pos, d)).getD .ANY).intersect ec with
      | none =>
        if displayRaises s then ((Except.error Err.attributeError : Except Err Bool), s)
        else ((Except.error Err.valueError : Except Err Bool), s)
      | some newEc =>
        if (s.edgeCount (pos, d)).getD .ANY ≠ newEc then
          (.ok true,
            { s with
              edgeCount := fun k => if k = (pos, d) then some newEc else s.edgeCount k
              commandStack := Command.dedCorner pos d ::
                Command.propDiag pos d.opposite :: s.commandStack })
        else (.ok false, s))).2
    rcases hint : ((s.edgeCount (pos, d)).getD .ANY).intersect ec with _ | newEc
    · dsimp only
      by_cases hd : displayRaises s
      · rw [if_pos hd]; exact Mono.refl s
      · rw [if_neg hd]; exact Mono.refl s
    · dsimp only
      rcases eq_or_ne ((s.edgeCount (pos, d)).getD .ANY) newEc with hne | hne
      · rw [if_neg (by simp [hne])]
        exact Mono.refl s
      · rw [if_pos hne]
        constructor
        · intro p v hv _; exact hv
        · intro k
          by_cases hk : k = (pos, d)
          · subst hk
            have hsub := intersect_to_set_subset _ _ _ hint
            simpa using hsub
          · simp [hk]

theorem monoIte {c : Prop} [Decidable c] {m1 m2 : M α}
    (h1 : Preserves m1) (h2 : Preserves m2) :
    Preserves (if c then m1 else m2) := by
  by_cases hc : c
  · rwa [if_pos hc]
  · rwa [if_neg hc]

/-- One-step evaluation of `setEdgeNC`. -/
theorem setEdgeNC_eval (pos : Position) (et : Option EdgeType) (s : Sudoku) :
    setEdgeNC pos et s =
      if s.edge pos = some (some EdgeType.SPACE) ∧ et ≠ some EdgeType.SPACE then
        M.bind' (seLoop pos Direction.orthogonals ∅) (fun nv => M.pure' (true, nv))
          { s with edge := fun q => if q = pos then some et else s.edge q }
      else (Except.ok (false, (∅ : Finset Position)), s) := by
  have h1 : setEdgeNC pos et s
      = (if s.edge pos = some (some EdgeType.SPACE) ∧ et ≠ some EdgeType.SPACE then
          (do storeEdge pos et
              let nv ← seLoop pos Direction.orthogonals ∅
              pure (true, nv) : M (Bool × Finset Position))
        else pure (false, (∅ : Finset Position))) s := rfl
  rw [h1, apply_ite (fun m : M (Bool × Finset Position) => m s)]
  split
  · rfl
  · rfl

theorem monoSetEdgeNC (pos : Position) (et : Option EdgeType) :
    Preserves (setEdgeNC pos et) := by
  intro s
  rw [setEdgeNC_eval]
  by_cases hc : s.edge pos = some (some EdgeType.SPACE) ∧ et ≠ some EdgeType.SPACE
  · rw [if_pos hc]
    have h1 : Mono s { s with edge := fun q => if q = pos then some et else s.edge q } := by
      constructor
      · intro p v hv hns
        by_cases hp : p = pos
        · subst hp
          rw [hv] at hc
          cases hc.1
          exact absurd rfl hns
        · simpa [hp] using hv
      · intro k; exact Finset.Subset.refl _
    have h2 := monoBind (f := fun nv => pure (f := M) (true, nv))
      (monoSeLoop pos Direction.orthogonals ∅) (fun nv => monoPure _)
      { s with edge := fun q => if q = pos then some et else s.edge q }
    exact h1.trans h2
  · rw [if_neg hc]
    exact Mono.refl s

theorem monoCrossLoopBody (e : Position) : Preserves (crossLoopBody e) := by
  refine monoBind monoGetS (fun s' => ?_)
  refine monoIte (monoIte ?_ (monoPure _)) (monoPure _)
  exact monoBind (monoSetEdgeNC e (some .CROSS)) (fun _ => monoPure _)

theorem monoDfcAppend (set1 : Finset Position) : Preserves (dfcAppend set1) := by
  refine monoBind (fun s => Mono.of_eq rfl rfl) (fun _ => ?_)
  rcases twoElems set1 with _ | ⟨p1, p2⟩
  · exact monoThrowE _
  · exact monoMfor (fun e => monoCrossLoopBody e)

theorem monoDfc :
    ∀ (n : ℕ) (set1 : Finset Position) (s : Sudoku),
      s.connected.length ≤ n → Mono s (deduce_from_connected set1 s).2 := by
  intro n
  induction n with
  | zero =>
    intro set1 s hlen
    have hnil : s.connected = [] := List.length_eq_zero.mp (Nat.le_zero.mp hlen)
    rw [deduce_from_connected]
    split
    · next c rem heq => rw [hnil] at heq; simp [findMerge] at heq
    · exact monoDfcAppend set1 s
  | succ n ih =>
    intro set1 s hlen
    rw [deduce_from_connected]
    split
    · next c rem heq =>
      have hlt := findMerge_length heq
      have h1 : Mono s { s with connected := rem } := Mono.of_eq rfl rfl
      exact h1.trans (ih _ _ (by simp only []; omega))
    · exact monoDfcAppend set1 s

theorem monoSetEdge (pos : Position) (et : Option EdgeType) :
    Preserves (set_edge pos et) := by
  refine monoBind (monoSetEdgeNC pos et) (fun r => ?_)
  refine monoIte ?_ (monoPure _)
  refine monoBind (fun s => monoDfc s.connected.length r.2 s (le_refl _)) (fun _ => monoPure _)

theorem monoDedCornerEntryStep (pos : Position) (d : Direction)
    (newEc : EdgeCount) : Preserves (dedCornerEntryStep pos d newEc) := by
  refine monoBind monoGetS (fun s' => ?_)
  refine monoIte ?_ (monoPure _)
  refine monoBind (monoLiftE _) (fun ecBack => ?_)
  exact monoBind (monoSetEdgeCount _ _ _) (fun _ => monoPure _)

theorem monoDedCorner (pos : Position) (d : Direction) :
    Preserves (deduce_from_corner pos d) := by
  refine monoBind monoGetS (fun s => ?_)
  refine monoBind (monoLiftE _) (fun newEc => ?_)
  refine monoBind (monoLiftE _) (fun newEdge1 => ?_)
  refine monoBind (monoLiftE _) (fun newEdge2 => ?_)
  refine monoBind (monoSetEdgeCount _ _ _) (fun _ => ?_)
  refine monoBind (monoSetEdge _ _) (fun _ => ?_)
  refine monoBind (monoSetEdge _ _) (fun _ => ?_)
  refine monoBind (monoDedCornerEntryStep _ _ _) (fun _ => ?_)
  exact monoBind (monoSetEdgeCount _ _ _) (fun _ => monoPure _)

theorem monoDedVertex (pos : Position) : Preserves (deduce_from_vertex pos) := by
  refine monoBind monoGetS (fun s => ?_)
  refine monoIte (monoMfor (fun e => ?_)) (monoIte (monoMfor (fun e => ?_))
    (monoIte (monoMfor (fun e => ?_)) (monoPure _))) <;>
    exact monoBind (monoSetEdge _ _) (fun _ => monoPure _)

theorem monoDedEntry (pos : Position) : Preserves (deduce_from_entry pos) := by
  refine monoBind monoGetS (fun s => ?_)
  rcases s.entryGet pos with _ | n
  · exact monoPure _
  · refine monoIte (monoMfor (fun e => ?_)) (monoIte (monoMfor (fun e => ?_))
      (monoPure _)) <;>
      exact monoBind (monoSetEdge _ _) (fun _ => monoPure _)

theorem monoPropDiag (pos : Position) (d : Direction) :
    Preserves (propagate_diagonal pos d) := by
  refine monoBind monoGetS (fun s => ?_)
  refine monoIte ?_ (monoPure _)
  rcases s.edgeCount (pos, d.opposite) with _ | ec0
  · exact monoThrowE _
  · refine monoBind (monoLiftE _) (fun ec1? => ?_)
    rcases ec1? with _ | ec1
    · exact monoBind (monoSetEdgeCount _ _ _) (fun _ => monoPure _)
    · refine monoBind (monoSetEdgeCount _ _ _) (fun _ => ?_)
      exact monoBind (monoSetEdgeCount _ _ _) (fun _ => monoPure _)

theorem monoDed3 (pos : Position) : Preserves (deduce_from_3 pos) := by
  refine monoMfor (fun d => ?_)
  refine monoBind monoGetS (fun s => ?_)
  refine monoIte ?_ (monoPure _)
  refine monoBind (monoSetEdge _ _) (fun _ => ?_)
  refine monoBind (monoSetEdge _ _) (fun _ => ?_)
  refine monoBind (monoSetEdge _ _) (fun _ => ?_)
  refine monoBind (monoSetEdge _ _) (fun _ => ?_)
  exact monoBind (monoSetEdge _ _) (fun _ => monoPure _)

theorem monoRunCommand (c : Command) : Preserves (runCommand c) := by
  cases c with
  | dedVertex p => exact monoDedVertex p
  | dedEntry p => exact monoDedEntry p
  | dedCorner p d => exact monoDedCorner p d
  | propDiag p d => exact monoPropDiag p d

theorem monoRunNext : Preserves run_next_command := by
  intro s
  unfold run_next_command
  rcases hcs : s.commandStack with _ | ⟨c, rest⟩
  · exact Mono.refl s
  · have h1 : Mono s { s with commandStack := rest } := Mono.of_eq rfl rfl
    exact h1.trans (monoRunCommand c _)

theorem monoRunAll (fuel : ℕ) : Preserves (run_all_commands fuel) := by
  induction fuel with
  | zero => exact monoPure _
  | succ n ih =>
    intro s
    unfold run_all_commands
    rcases hcs : s.commandStack with _ | ⟨c, rest⟩
    · exact Mono.refl s
    · exact monoBind monoRunNext (fun _ => ih) s

theorem monoSolve (fuel : ℕ) : Preserves (solve fuel) := by
  refine monoBind monoGetS (fun s0 => ?_)
  refine monoBind (monoMfor (fun ij => ?_)) (fun _ => monoRunAll fuel)
  refine monoBind monoGetS (fun s => ?_)
  refine monoIte ?_ (monoIte (monoAddCommand _) (monoPure _))
  refine monoBind (monoDed3 _) (fun _ => ?_)
  exact monoMfor (fun d => monoAddCommand _)

theorem monoApplyOp (op : Op) : Preserves (applyOp op) := by
  cases op with
  | opSetEdge p et => exact monoBind (monoSetEdge p et) (fun _ => monoPure _)
  | opSetEdgeCount p d ec => exact monoBind (monoSetEdgeCount p d ec) (fun _ => monoPure _)
  | opDedCorner p d => exact monoDedCorner p d
  | opDedVertex p => exact monoDedVertex p
  | opDedEntry p => exact monoDedEntry p
  | opPropDiag p d => exact monoPropDiag p d
  | opDed3 p => exact monoDed3 p
  | opDedConn c => exact fun s => monoDfc s.connected.length c s (le_refl _)
  | opSolve fuel => exact monoSolve fuel

theorem monoRunOps (ops : List Op) (s : Sudoku) : Mono s (runOps ops s) := by
  induction ops generalizing s with
  | nil => exact Mono.refl s
  | cons op rest ih =>
    show Mono s (match applyOp op s with
      | (.ok _, s') => runOps rest s'
      | (.error _, s') => s')
    have hop : Mono s (applyOp op s).2 := monoApplyOp op s
    rcases hos : applyOp op s with ⟨r, s'⟩
    rw [hos] at hop
    cases r with
    | ok a => exact hop.trans (ih s')
    | error e => exact hop

instance {e a : Type} [DecidableEq e] [DecidableEq a] : DecidableEq (Except e a) := fun x y =>
  match x, y with
  | .ok u, .ok v =>
    if h : u = v then isTrue (by rw [h]) else isFalse (by intro hc; cases hc; exact h rfl)
  | .error u, .error v =>
    if h : u = v then isTrue (by rw [h]) else isFalse (by intro hc; cases hc; exact h rfl)
  | .ok _, .error _ => isFalse (fun hc => Except.noConfusion hc)
  | .error _, .ok _ => isFalse (fun hc => Except.noConfusion hc)

/-! ## Claim theorems -/

/-- C2: for every sequence of calls to the mutators and deduction rules
(`set_edge`, `set_edge_count`, `deduce_from_corner`,
`deduce_from_vertex`, `deduce_from_entry`, `propagate_diagonal`,
`deduce_from_3`, `deduce_from_connected`, `solve`), once an edge
position holds `THICK` or `CROSS` its stored value never changes again,
and the stored `EdgeCount` at any (position, direction) key (absent key
read as `ANY`, as the code's `dict.get` default does) only moves to a
subset of its previous value as a subset of {0,1,2}. -/
theorem claim_C2_monotonic (s : Sudoku) (ops : List Op) (p : Position)
    (v : Option EdgeType) (k : Position × Direction)
    (hv : s.edge p = some v)
    (hfix : v = some EdgeType.THICK ∨ v = some EdgeType.CROSS) :
    (runOps ops s).edge p = some v ∧
      (((runOps ops s).edgeCount k).getD .ANY).to_set ⊆
        ((s.edgeCount k).getD .ANY).to_set := by
  have h := monoRunOps ops s
  refine ⟨h.1 p v hv ?_, h.2 k⟩
  rcases hfix with h1 | h1 <;> simp [h1]

/-- Witness for C2 at a concrete board: on `Sudoku([[1]])`, fix the
edge at (0,1) to `CROSS`, then attempt to overwrite it with `THICK`
while narrowing a corner count to `ZERO`; the edge stays `CROSS` and
the corner count shrinks. -/
theorem claim_C2_monotonic_witness :
    (runOps [Op.opSetEdge ⟨0, 1⟩ (some .THICK),
             Op.opSetEdgeCount ⟨1, 1⟩ .UP_LEFT (some .ZERO)]
        (runOps [Op.opSetEdge ⟨0, 1⟩ (some .CROSS)] (Sudoku.init [[1]]))).edge
        ⟨0, 1⟩ = some (some .CROSS) ∧
      (((runOps [Op.opSetEdge ⟨0, 1⟩ (some .THICK),
             Op.opSetEdgeCount ⟨1, 1⟩ .UP_LEFT (some .ZERO)]
        (runOps [Op.opSetEdge ⟨0, 1⟩ (some .CROSS)] (Sudoku.init [[1]]))).edgeCount
          (⟨1, 1⟩, .UP_LEFT)).getD .ANY).to_set ⊆
        (((runOps [Op.opSetEdge ⟨0, 1⟩ (some .CROSS)] (Sudoku.init [[1]])).edgeCount
          (⟨1, 1⟩, .UP_LEFT)).getD .ANY).to_set :=
  claim_C2_monotonic
    (runOps [Op.opSetEdge ⟨0, 1⟩ (some .CROSS)] (Sudoku.init [[1]]))
    [Op.opSetEdge ⟨0, 1⟩ (some .THICK),
     Op.opSetEdgeCount ⟨1, 1⟩ .UP_LEFT (some .ZERO)]
    ⟨0, 1⟩ (some .CROSS) (⟨1, 1⟩, .UP_LEFT) (by decide) (Or.inr rfl)

/-- C1 (divergence evidence): contrary to the specification's table,
`EdgeCount.subtract` does not return "no forced value" for `ANY` — the
Python code raises `KeyError` (the `_SUBTRACT_TABLE` dictionary has no
`ANY` row), and this is reached from `deduce_from_corner` on a fresh,
still-`ANY` corner: already the first corner deduction on the board
`[[3]]` raises. -/
theorem claim_C1_subtract_any_raises :
    (∀ e : Option EdgeType, EdgeCount.ANY.subtract e = .error .keyError) ∧
    (deduce_from_corner ⟨1, 1⟩ .UP_LEFT (Sudoku.init [[3]])).1 =
      .error .keyError := by
  constructor
  · decide
  · decide

/-- C8: the intersection lattice laws: `ANY` is the identity,
`intersect` is idempotent and commutative, and `ZERO ∩ TWO` is the
empty-set contradiction (`None`). -/
theorem claim_C8_intersect_lattice :
    (∀ x : EdgeCount, EdgeCount.ANY.intersect x = some x) ∧
    (∀ x : EdgeCount, x.intersect x = some x) ∧
    (∀ x y : EdgeCount, x.intersect y = y.intersect x) ∧
    EdgeCount.ZERO.intersect EdgeCount.TWO = none := by
  refine ⟨by decide, by decide, by decide, by decide⟩

/-- C9: `subtract_by` raises (`ValueError`) exactly for arguments
outside {1,2,3}; for valid arguments it returns "impossible" (`None`)
exactly for (1, `TWO`) and (3, `ZERO`), and the fixed table value in
every other case. -/
theorem claim_C9_subtract_by (ec : EdgeCount) (num : ℤ) :
    (ec.subtract_by num = .error .valueError ↔
      ¬(num = 1 ∨ num = 2 ∨ num = 3)) ∧
    (ec.subtract_by num = .ok none ↔
      (num = 1 ∧ ec = .TWO) ∨ (num = 3 ∧ ec = .ZERO)) := by
  unfold EdgeCount.subtract_by
  split_ifs with h1 h2 h3
  · subst h1
    refine ⟨by simp, ?_⟩
    cases ec <;> simp [EdgeCount.sub1]
  · subst h2
    refine ⟨by simp, ?_⟩
    cases ec <;> simp [EdgeCount.sub2]
  · subst h3
    refine ⟨by simp, ?_⟩
    cases ec <;> simp [EdgeCount.sub3]
  · refine ⟨by simp; omega, ?_⟩
    constructor
    · intro h; cases h
    · intro h; rcases h with ⟨h, _⟩ | ⟨h, _⟩ <;> omega

/-- The per-entry loop of `validate_solution` succeeds exactly when
every listed entry's `THICK` count matches its clue. -/
theorem validateEntries_ok (s : Sudoku) (l : List (Position × ℤ)) :
    validateEntries s l = .ok () ↔
      ∀ pn ∈ l, (thickCount s pn.1 : ℤ) = pn.2 := by
  induction l with
  | nil => simp [validateEntries]
  | cons pn rest ih =>
    rcases pn with ⟨pos, num⟩
    unfold validateEntries
    rcases eq_or_ne (thickCount s pos : ℤ) num with he | he
    · rw [if_neg (by simpa using he)]
      rw [ih]
      simp only [List.mem_cons]
      constructor
      · intro h pn' hpn'
        rcases hpn' with h' | h'
        · cases h'; exact he
        · exact h pn' h'
      · intro h pn' hpn'
        exact h pn' (Or.inr hpn')
    · rw [if_pos he]
      constructor
      · intro h; cases h
      · intro h
        exact absurd (h (pos, num) (List.mem_cons_self _ _)) he

/-- C5: `validate_solution` raises exactly when the board is invalid:
it returns silently if and only if the connected-components list has
exactly two equal entries and every entry position's count of `THICK`
neighboring edges equals its clue. -/
theorem claim_C5_validate (s : Sudoku) :
    validate_solution s = .ok () ↔
      (s.connected.length = 2 ∧ s.connected[0]? = s.connected[1]? ∧
        ∀ pn ∈ s.entry, (thickCount s pn.1 : ℤ) = pn.2) := by
  unfold validate_solution
  split_ifs with hcond
  · constructor
    · intro h; cases h
    · intro h
      rcases hcond with hb | hb
      · exact absurd h.1 hb
      · exact absurd h.2.1 hb
  · push_neg at hcond
    rw [validateEntries_ok]
    constructor
    · intro h; exact ⟨hcond.1, hcond.2, h⟩
    · intro h; exact h.2.2

/-- Witness for C5: a concrete state that validates (two equal
components, no entries), built by overriding the components of an
empty board. -/
theorem claim_C5_validate_witness :
    validate_solution
      { Sudoku.init [] with
        connected := [{⟨0, 0⟩, ⟨0, 2⟩}, {⟨0, 0⟩, ⟨0, 2⟩}] } = .ok () :=
  (claim_C5_validate _).mpr (by decide)

/-- Counterexample to C3 as stated: on a reachable board holding a
stored-`None` edge value, an empty intersection makes the diagnostic
`self.display()` call raise `AttributeError` before the contradiction
`ValueError` is reached.  Concretely, on `Sudoku([[1]])`, narrowing the
UP_LEFT corner of (1,1) to `ONE` and running `deduce_from_corner`
there makes `set_edge` store `None` at the edge (1,0); a subsequent
`set_edge_count((1,1), UP_LEFT, ZERO)` finds the empty intersection
`ONE ∩ ZERO` yet raises `AttributeError`, not the contradiction
error. -/
theorem claim_C3_counterexample :
    (runOps [.opSetEdgeCount ⟨1, 1⟩ .UP_LEFT (some .ONE),
             .opDedCorner ⟨1, 1⟩ .UP_LEFT] (Sudoku.init [[1]])).edge ⟨1, 0⟩ =
        some none ∧
    ((((runOps [.opSetEdgeCount ⟨1, 1⟩ .UP_LEFT (some .ONE),
                .opDedCorner ⟨1, 1⟩ .UP_LEFT] (Sudoku.init [[1]])).edgeCount
        (⟨1, 1⟩, .UP_LEFT)).getD .ANY).intersect .ZERO = none) ∧
    (set_edge_count ⟨1, 1⟩ .UP_LEFT (some .ZERO)
        (runOps [.opSetEdgeCount ⟨1, 1⟩ .UP_LEFT (some .ONE),
                 .opDedCorner ⟨1, 1⟩ .UP_LEFT] (Sudoku.init [[1]]))).1 =
      .error .attributeError := by
  refine ⟨?_, ?_, ?_⟩
  · decide
  · decide
  · decide

/-- C3 (amended): `set_edge_count(pos, direction, ec)` raises if and
only if the intersection of the stored count (default `ANY`) with `ec`
is empty; the raised error is the contradiction `ValueError` unless
the diagnostic `display()` call performed before raising itself
crashes (`AttributeError`) on an edge entry holding `None`, in which
case that error propagates instead.  When it raises, the state (in
particular the `edge_count` entry for `(pos, direction)`) is
unchanged; when it does not raise, it returns `True` and commits the
intersection at exactly the key `(pos, direction)` when the
intersection differs from the stored value, and returns `False` with
the state unchanged when it does not. -/
theorem claim_C3_set_edge_count (s : Sudoku) (pos : Position) (d : Direction)
    (ec : EdgeCount) :
    ((∃ e, (set_edge_count pos d (some ec) s).1 = .error e) ↔
      ((s.edgeCount (pos, d)).getD .ANY).intersect ec = none) ∧
    (((s.edgeCount (pos, d)).getD .ANY).intersect ec = none →
      (set_edge_count pos d (some ec) s).2 = s ∧
      (¬displayRaises s →
        (set_edge_count pos d (some ec) s).1 = .error .valueError) ∧
      (displayRaises s →
        (set_edge_count pos d (some ec) s).1 = .error .attributeError)) ∧
    (∀ newEc, ((s.edgeCount (pos, d)).getD .ANY).intersect ec = some newEc →
      (newEc ≠ (s.edgeCount (pos, d)).getD .ANY →
        (set_edge_count pos d (some ec) s).1 = .ok true ∧
        (set_edge_count pos d (some ec) s).2.edgeCount (pos, d) = some newEc ∧
        ∀ k, k ≠ (pos, d) →
          (set_edge_count pos d (some ec) s).2.edgeCount k = s.edgeCount k) ∧
      (newEc = (s.edgeCount (pos, d)).getD .ANY →
        set_edge_count pos d (some ec) s = (.ok false, s))) := by
  have hrw : set_edge_count pos d (some ec) s =
      (match ((s.edgeCount (pos, d)).getD .ANY).intersect ec with
        | none =>
          if displayRaises s then
            ((Except.error Err.attributeError : Except Err Bool), s)
          else ((Except.error Err.valueError : Except Err Bool), s)
        | some newEc =>
          if (s.edgeCount (pos, d)).getD .ANY ≠ newEc then
            (.ok true,
              { s with
                edgeCount := fun k =>
                  if k = (pos, d) then some newEc else s.edgeCount k
                commandStack := Command.dedCorner pos d ::
                  Command.propDiag pos d.opposite :: s.commandStack })
          else (.ok false, s)) := rfl
  rw [hrw]
  rcases hint : ((s.edgeCount (pos, d)).getD .ANY).intersect ec with _ | newEc
  · dsimp only
    refine ⟨?_, ?_, fun newEc h => nomatch h⟩
    · constructor
      · intro _; rfl
      · intro _
        by_cases hd : displayRaises s
        · exact ⟨.attributeError, by rw [if_pos hd]⟩
        · exact ⟨.valueError, by rw [if_neg hd]⟩
    · intro _
      refine ⟨?_, ?_, ?_⟩
      · by_cases hd : displayRaises s
        · rw [if_pos hd]
        · rw [if_neg hd]
      · intro hd; rw [if_neg hd]
      · intro hd; rw [if_pos hd]
  · dsimp only
    refine ⟨?_, ?_, ?_⟩
    · constructor
      · rintro ⟨e, he⟩
        rcases eq_or_ne ((s.edgeCount (pos, d)).getD .ANY) newEc with hne | hne
        · rw [if_neg (by simp [hne])] at he
          cases he
        · rw [if_pos hne] at he
          cases he
      · intro h; cases h
    · intro h; cases h
    · intro newEc' h
      cases h
      constructor
      · intro hne
        rw [if_pos (Ne.symm hne)]
        refine ⟨rfl, by simp, ?_⟩
        intro k hk
        simp [hk]
      · intro he
        rw [if_neg (by simp [he])]

/-- Witness for C3: on `Sudoku([[1]])`, narrowing the `UP_LEFT` corner
of the entry (1,1) from `ANY` to `ZERO` returns `True` and commits
`ZERO`. -/
theorem claim_C3_set_edge_count_witness :
    (set_edge_count ⟨1, 1⟩ .UP_LEFT (some .ZERO) (Sudoku.init [[1]])).1 =
        .ok true ∧
      (set_edge_count ⟨1, 1⟩ .UP_LEFT (some .ZERO)
          (Sudoku.init [[1]])).2.edgeCount (⟨1, 1⟩, .UP_LEFT) = some .ZERO := by
  have h := (claim_C3_set_edge_count (Sudoku.init [[1]]) ⟨1, 1⟩ .UP_LEFT
    .ZERO).2.2 .ZERO (by decide)
  have h2 := h.1 (by decide)
  exact ⟨h2.1, h2.2.1⟩

/-! ## Component-size invariant and error-freedom of `set_edge` -/

/-- Domain invariant of the edge dictionary: keys are `EDGE`-kind
positions (true of `Sudoku.__init__` and preserved, since `set_edge`
only overwrites existing keys). -/
def EdgeDom (s : Sudoku) : Prop :=
  ∀ p, s.edge p ≠ none → p.kind = Kind.EDGE

/-- Every stored connected component has exactly two positions. -/
def AllPairsL (l : List (Finset Position)) : Prop :=
  ∀ c ∈ l, c.card = 2

/-- Pure mirror of the `neighbor_vertex` set accumulated by the loop
in `set_edge`. -/
def seSet (pos : Position) : List Direction → Finset Position → Finset Position
  | [], acc => acc
  | d :: rest, acc =>
    if (pos.move d 1).kind = Kind.VERTEX then
      seSet pos rest (insert (pos.move d 1) acc)
    else seSet pos rest acc

theorem seLoop_spec (pos : Position) :
    ∀ (l : List Direction) (acc : Finset Position) (s : Sudoku),
      ∃ cs, seLoop pos l acc s =
        (.ok (seSet pos l acc), { s with commandStack := cs }) := by
  intro l
  induction l with
  | nil => intro acc s; exact ⟨s.commandStack, rfl⟩
  | cons d rest ih =>
    intro acc s
    by_cases hv : (pos.move d 1).kind = Kind.VERTEX
    · have h1 : seLoop pos (d :: rest) acc s
          = seLoop pos rest (insert (pos.move d 1) acc)
            { s with commandStack := Command.dedVertex (pos.move d 1) :: s.commandStack } := by
        show (if (pos.move d 1).kind = Kind.VERTEX then
            M.bind' (addCommand (.dedVertex (pos.move d 1)))
              (fun _ => seLoop pos rest (insert (pos.move d 1) acc))
          else if (pos.move d 1).kind = Kind.ENTRY then
            M.bind' (addCommand (.dedEntry (pos.move d 1)))
              (fun _ => M.bind' (addCommand (.dedCorner (pos.move d 1) (d.rotate 3)))
              (fun _ => M.bind' (addCommand (.dedCorner (pos.move d 1) (d.rotate (-3))))
              (fun _ => seLoop pos rest acc)))
          else seLoop pos rest acc) s = _
        rw [if_pos hv]
        rfl
      rw [h1]
      rcases ih (insert (pos.move d 1) acc) _ with ⟨cs, hcs⟩
      refine ⟨cs, ?_⟩
      rw [hcs]
      have h0 : seSet pos (d :: rest) acc
          = if (pos.move d 1).kind = Kind.VERTEX then
              seSet pos rest (insert (pos.move d 1) acc)
            else seSet pos rest acc := rfl
      rw [h0, if_pos hv]
    · by_cases he : (pos.move d 1).kind = Kind.ENTRY
      · have h1 : seLoop pos (d :: rest) acc s
            = seLoop pos rest acc
              { s with commandStack :=
                Command.dedCorner (pos.move d 1) (d.rotate (-3)) ::
                Command.dedCorner (pos.move d 1) (d.rotate 3) ::
                Command.dedEntry (pos.move d 1) :: s.commandStack } := by
          show (if (pos.move d 1).kind = Kind.VERTEX then
              M.bind' (addCommand (.dedVertex (pos.move d 1)))
                (fun _ => seLoop pos rest (insert (pos.move d 1) acc))
            else if (pos.move d 1).kind = Kind.ENTRY then
              M.bind' (addCommand (.dedEntry (pos.move d 1)))
                (fun _ => M.bind' (addCommand (.dedCorner (pos.move d 1) (d.rotate 3)))
                (fun _ => M.bind' (addCommand (.dedCorner (pos.move d 1) (d.rotate (-3))))
                (fun _ => seLoop pos rest acc)))
            else seLoop pos rest acc) s = _
          rw [if_neg hv, if_pos he]
          rfl
        rw [h1]
        rcases ih acc _ with ⟨cs, hcs⟩
        refine ⟨cs, ?_⟩
        rw [hcs]
        have h0 : seSet pos (d :: rest) acc
            = if (pos.move d 1).kind = Kind.VERTEX then
                seSet pos rest (insert (pos.move d 1) acc)
              else seSet pos rest acc := rfl
        rw [h0, if_neg hv]
      · have h1 : seLoop pos (d :: rest) acc s = seLoop pos rest acc s := by
          show (if (pos.move d 1).kind = Kind.VERTEX then
              M.bind' (addCommand (.dedVertex (pos.move d 1)))
                (fun _ => seLoop pos rest (insert (pos.move d 1) acc))
            else if (pos.move d 1).kind = Kind.ENTRY then
              M.bind' (addCommand (.dedEntry (pos.move d 1)))
                (fun _ => M.bind' (addCommand (.dedCorner (pos.move d 1) (d.rotate 3)))
                (fun _ => M.bind' (addCommand (.dedCorner (pos.move d 1) (d.rotate (-3))))
                (fun _ => seLoop pos rest acc)))
            else seLoop pos rest acc) s = _
          rw [if_neg hv, if_neg he]
        rw [h1]
        rcases ih acc s with ⟨cs, hcs⟩
        refine ⟨cs, ?_⟩
        rw [hcs]
        have h0 : seSet pos (d :: rest) acc
            = if (pos.move d 1).kind = Kind.VERTEX then
                seSet pos rest (insert (pos.move d 1) acc)
              else seSet pos rest acc := rfl
        rw [h0, if_neg hv]

/-- An `EDGE`-kind position has exactly two `VERTEX`-kind orthogonal
neighbors, so `neighbor_vertex` always has exactly two elements. -/
theorem seSet_card_two (pos : Position) (hk : pos.kind = Kind.EDGE) :
    (seSet pos Direction.orthogonals ∅).card = 2 := by
  have hx := Int.emod_two_eq pos.x
  have hy := Int.emod_two_eq pos.y
  unfold Position.kind at hk
  split_ifs at hk with h1 h2
  rcases hx with hx | hx <;> rcases hy with hy | hy
  · exact absurd ⟨hx, hy⟩ h1
  · -- x even, y odd: LEFT and RIGHT neighbors are vertices
    have mU : (pos.move .UP 1).kind ≠ Kind.VERTEX := by
      simp only [Position.move, Direction.to_delta, Position.kind]
      rw [if_neg (by omega)]
      split_ifs <;> simp
    have mD : (pos.move .DOWN 1).kind ≠ Kind.VERTEX := by
      simp only [Position.move, Direction.to_delta, Position.kind]
      rw [if_neg (by omega)]
      split_ifs <;> simp
    have mL : (pos.move .LEFT 1).kind = Kind.VERTEX := by
      simp only [Position.move, Direction.to_delta, Position.kind]
      rw [if_pos (by constructor <;> omega)]
    have mR : (pos.move .RIGHT 1).kind = Kind.VERTEX := by
      simp only [Position.move, Direction.to_delta, Position.kind]
      rw [if_pos (by constructor <;> omega)]
    show (seSet pos [.UP, .DOWN, .LEFT, .RIGHT] ∅).card = 2
    simp only [seSet, mU, mD, mL, mR, ite_true, ite_false, if_true, if_false,
      eq_self_iff_true, not_true, not_false_iff]
    rw [Finset.card_insert_of_not_mem (by
      simp only [Finset.mem_insert, Finset.not_mem_empty, or_false,
        Position.move, Direction.to_delta, Position.mk.injEq]
      omega)]
    simp
  · -- x odd, y even: UP and DOWN neighbors are vertices
    have mU : (pos.move .UP 1).kind = Kind.VERTEX := by
      simp only [Position.move, Direction.to_delta, Position.kind]
      rw [if_pos (by constructor <;> omega)]
    have mD : (pos.move .DOWN 1).kind = Kind.VERTEX := by
      simp only [Position.move, Direction.to_delta, Position.kind]
      rw [if_pos (by constructor <;> omega)]
    have mL : (pos.move .LEFT 1).kind ≠ Kind.VERTEX := by
      simp only [Position.move, Direction.to_delta, Position.kind]
      rw [if_neg (by omega)]
      split_ifs <;> simp
    have mR : (pos.move .RIGHT 1).kind ≠ Kind.VERTEX := by
      simp only [Position.move, Direction.to_delta, Position.kind]
      rw [if_neg (by omega)]
      split_ifs <;> simp
    show (seSet pos [.UP, .DOWN, .LEFT, .RIGHT] ∅).card = 2
    simp only [seSet, mU, mD, mL, mR, ite_true, ite_false, if_true, if_false,
      eq_self_iff_true, not_true, not_false_iff]
    rw [Finset.card_insert_of_not_mem (by
      simp only [Finset.mem_insert, Finset.not_mem_empty, or_false,
        Position.move, Direction.to_delta, Position.mk.injEq]
      omega)]
    simp
  · exact absurd ⟨hx, hy⟩ h2

theorem twoElemsL_len2 {l : List Position} (hl : l.length = 2) :
    ∃ p q, twoElemsL l = some (p, q) := by
  have hlen : (l.insertionSort posLe).length = 2 :=
    (List.perm_insertionSort posLe l).length_eq.trans hl
  rcases List.length_eq_two.mp hlen with ⟨a, b, hab⟩
  exact ⟨a, b, by unfold twoElemsL; rw [hab]⟩

/-- Unpacking a two-element component always succeeds. -/
theorem twoElems_of_card_two {c : Finset Position} (hc : c.card = 2) :
    ∃ p q, twoElems c = some (p, q) := by
  rcases c with ⟨m, nd⟩
  induction m using Quotient.inductionOn with
  | h l =>
    have hl : l.length = 2 := hc
    rcases twoElemsL_len2 hl with ⟨p, q, hpq⟩
    exact ⟨p, q, hpq⟩

theorem findMerge_card {set1 : Finset Position} :
    ∀ {l : List (Finset Position)} {c rem},
      findMerge set1 l = some (c, rem) → (set1 ∩ c).card = 1 := by
  intro l
  induction l with
  | nil => intro c rem h; simp [findMerge] at h
  | cons a rest ih =>
    intro c rem h
    simp only [findMerge] at h
    split at h
    · cases h; assumption
    · revert h
      split
      · next c' rest' heq => intro h; cases h; exact ih heq
      · intro h; cases h

theorem findMerge_mem {set1 : Finset Position} :
    ∀ {l : List (Finset Position)} {c rem},
      findMerge set1 l = some (c, rem) →
        c ∈ l ∧ ∀ x ∈ rem, x ∈ l := by
  intro l
  induction l with
  | nil => intro c rem h; simp [findMerge] at h
  | cons a rest ih =>
    intro c rem h
    simp only [findMerge] at h
    split at h
    · cases h
      exact ⟨List.mem_cons_self _ _, fun x hx => List.mem_cons_of_mem _ hx⟩
    · revert h
      split
      · next c' rest' heq =>
        intro h
        cases h
        rcases ih heq with ⟨hc, hr⟩
        refine ⟨List.mem_cons_of_mem _ hc, ?_⟩
        intro x hx
        rcases List.mem_cons.mp hx with h' | h'
        · exact h' ▸ List.mem_cons_self _ _
        · exact List.mem_cons_of_mem _ (hr x h')
      · intro h; cases h

/-- Merging two two-element components sharing exactly one position
again yields a two-element set. -/
theorem card_merge {a b : Finset Position} (ha : a.card = 2) (hb : b.card = 2)
    (hab : (a ∩ b).card = 1) : ((a ∪ b) \ (a ∩ b)).card = 2 := by
  have hu : (a ∪ b).card = 3 := by
    have := Finset.card_union_add_card_inter a b
    omega
  have hsub : a ∩ b ⊆ a ∪ b := Finset.inter_subset_union
  rw [Finset.card_sdiff hsub, hu, hab]

/-- `setEdgeNC` never raises and never touches the component list,
the entry list, or the corner-count map. -/
theorem setEdgeNC_shape (pos : Position) (et : Option EdgeType) (s : Sudoku) :
    ∃ r s', setEdgeNC pos et s = (.ok r, s') ∧ s'.connected = s.connected
      ∧ s'.entry = s.entry ∧ s'.edgeCount = s.edgeCount := by
  rw [setEdgeNC_eval]
  by_cases hc : s.edge pos = some (some EdgeType.SPACE) ∧ et ≠ some EdgeType.SPACE
  · rw [if_pos hc]
    rcases seLoop_spec pos Direction.orthogonals ∅
      { s with edge := fun q => if q = pos then some et else s.edge q } with ⟨cs, hcs⟩
    refine ⟨(true, seSet pos Direction.orthogonals ∅),
      { s with
          edge := fun q => if q = pos then some et else s.edge q
          commandStack := cs },
      ?_, rfl, rfl, rfl⟩
    show M.bind' (seLoop pos Direction.orthogonals ∅) (fun nv => M.pure' (true, nv)) _ = _
    unfold M.bind'
    rw [hcs]
    rfl
  · rw [if_neg hc]
    exact ⟨(false, ∅), s, rfl, rfl, rfl, rfl⟩

/-- A loop whose body always succeeds and preserves the component
list itself succeeds and preserves the component list. -/
theorem mfor_shape {α : Type} {body : α → M Unit}
    (hb : ∀ a s, ∃ s', body a s = (.ok (), s') ∧ s'.connected = s.connected) :
    ∀ (l : List α) (s : Sudoku), ∃ s',
      mfor l body s = (.ok (), s') ∧ s'.connected = s.connected := by
  intro l
  induction l with
  | nil => intro s; exact ⟨s, rfl, rfl⟩
  | cons a rest ih =>
    intro s
    rcases hb a s with ⟨s1, hs1, hconn1⟩
    rcases ih s1 with ⟨s2, hs2, hconn2⟩
    refine ⟨s2, ?_, hconn2.trans hconn1⟩
    show M.bind' (body a) (fun _ => mfor rest body) s = _
    unfold M.bind'
    rw [hs1]
    dsimp only
    exact hs2

/-- One crossing-loop iteration never raises and never touches the
component list. -/
theorem crossLoopBody_shape (e : Position) (s0 : Sudoku) :
    ∃ s1, crossLoopBody e s0 = (.ok (), s1) ∧ s1.connected = s0.connected := by
  show ∃ s1, (if s0.edge e = some (some EdgeType.SPACE) then
      if s0.connected.length > 1 then
        M.bind' (setEdgeNC e (some .CROSS)) (fun _ => M.pure' ())
      else M.pure' ()
    else M.pure' ()) s0 = (.ok (), s1) ∧ s1.connected = s0.connected
  by_cases h1 : s0.edge e = some (some EdgeType.SPACE)
  · rw [if_pos h1]
    by_cases h2 : s0.connected.length > 1
    · rw [if_pos h2]
      rcases setEdgeNC_shape e (some .CROSS) s0 with ⟨r, s1, hs1, hconn, _, _⟩
      refine ⟨s1, ?_, hconn⟩
      show M.bind' (setEdgeNC e (some .CROSS)) (fun _ => M.pure' ()) s0 = _
      unfold M.bind'
      rw [hs1]
      rfl
    · rw [if_neg h2]; exact ⟨s0, rfl, rfl⟩
  · rw [if_neg h1]; exact ⟨s0, rfl, rfl⟩

/-- The crossing loop at the end of `deduce_from_connected` never
raises and never touches the component list. -/
theorem dfcCrossLoop_shape (l : List Position) :
    ∀ s : Sudoku, ∃ s',
      crossLoop l s = (.ok (), s') ∧ s'.connected = s.connected := by
  intro s
  exact mfor_shape (fun e s0 => crossLoopBody_shape e s0) l s

/-- `dfcAppend` on a two-element set: succeeds and the component list
becomes the old list with `set1` appended. -/
theorem dfcAppend_ok (set1 : Finset Position) (s : Sudoku)
    (h2 : set1.card = 2) :
    ∃ s', dfcAppend set1 s = (.ok (), s')
      ∧ s'.connected = s.connected ++ [set1] := by
  rcases twoElems_of_card_two h2 with ⟨p1, p2, hpq⟩
  have hrw : dfcAppend set1 s = (match twoElems set1 with
      | none => throwE Err.valueError
      | some (p1, p2) => crossLoop (p1.common_neighbors p2))
      { s with connected := s.connected ++ [set1] } := rfl
  rw [hrw, hpq]
  rcases dfcCrossLoop_shape (p1.common_neighbors p2)
    { s with connected := s.connected ++ [set1] } with ⟨s', hs', hconn⟩
  exact ⟨s', hs', by rw [hconn]⟩

/-- `deduce_from_connected` from a state whose components are all
two-element sets, applied to a two-element set: never raises, and
every component afterwards is again a two-element set. -/
theorem dfc_ok :
    ∀ (n : ℕ) (set1 : Finset Position) (s : Sudoku),
      s.connected.length ≤ n → set1.card = 2 → AllPairsL s.connected →
      ∃ s', deduce_from_connected set1 s = (.ok (), s')
        ∧ AllPairsL s'.connected := by
  intro n
  induction n with
  | zero =>
    intro set1 s hlen h2 hp
    have hnil : s.connected = [] := List.length_eq_zero.mp (Nat.le_zero.mp hlen)
    rw [deduce_from_connected]
    split
    · next c rem heq => rw [hnil] at heq; simp [findMerge] at heq
    · rcases dfcAppend_ok set1 s h2 with ⟨s', hs', hconn⟩
      refine ⟨s', hs', ?_⟩
      intro c hc
      rw [hconn, hnil] at hc
      simp at hc
      rw [hc]; exact h2
  | succ n ih =>
    intro set1 s hlen h2 hp
    rw [deduce_from_connected]
    split
    · next c rem heq =>
      have hcard := findMerge_card heq
      rcases findMerge_mem heq with ⟨hcmem, hrmem⟩
      have hc2 : c.card = 2 := hp c hcmem
      have hm2 : ((set1 ∪ c) \ (set1 ∩ c)).card = 2 := card_merge h2 hc2 hcard
      have hlt := findMerge_length heq
      refine ih _ { s with connected := rem } (by simp only []; omega) hm2 ?_
      intro x hx
      exact hp x (hrmem x hx)
    · rcases dfcAppend_ok set1 s h2 with ⟨s', hs', hconn⟩
      refine ⟨s', hs', ?_⟩
      intro c hc
      rw [hconn] at hc
      rcases List.mem_append.mp hc with h' | h'
      · exact hp c h'
      · simp at h'
        rw [h']; exact h2

/-- Success-path evaluation of `setEdgeNC`. -/
theorem setEdgeNC_pos_eval (pos : Position) (et : Option EdgeType) (s : Sudoku)
    (hc : s.edge pos = some (some EdgeType.SPACE) ∧ et ≠ some EdgeType.SPACE) :
    ∃ cs, setEdgeNC pos et s =
      (.ok (true, seSet pos Direction.orthogonals ∅),
        { s with
            edge := fun q => if q = pos then some et else s.edge q
            commandStack := cs }) := by
  rw [setEdgeNC_eval, if_pos hc]
  rcases seLoop_spec pos Direction.orthogonals ∅
    { s with edge := fun q => if q = pos then some et else s.edge q } with ⟨cs, hcs⟩
  refine ⟨cs, ?_⟩
  show M.bind' (seLoop pos Direction.orthogonals ∅) (fun nv => M.pure' (true, nv)) _ = _
  unfold M.bind'
  rw [hcs]
  rfl

/-- Failure-path evaluation of `setEdgeNC`. -/
theorem setEdgeNC_neg_eval (pos : Position) (et : Option EdgeType) (s : Sudoku)
    (hc : ¬(s.edge pos = some (some EdgeType.SPACE) ∧ et ≠ some EdgeType.SPACE)) :
    setEdgeNC pos et s = (.ok (false, ∅), s) := by
  rw [setEdgeNC_eval, if_neg hc]

/-- One-step evaluation of `set_edge`. -/
theorem set_edge_eval (pos : Position) (et : Option EdgeType) (s : Sudoku) :
    set_edge pos et s = (match setEdgeNC pos et s with
      | (.ok r, s1) =>
        if r.1 ∧ et = some EdgeType.THICK then
          M.bind' (fun st => deduce_from_connected r.2 st) (fun _ => M.pure' true) s1
        else (.ok r.1, s1)
      | (.error e, s1) => (.error e, s1)) := by
  show M.bind' (setEdgeNC pos et) _ s = _
  unfold M.bind'
  rcases setEdgeNC pos et s with ⟨r | e, s1⟩
  all_goals dsimp only
  rw [apply_ite (fun m : M Bool => m s1)]
  rfl

/-- The initial board's edge dictionary only has `EDGE`-kind keys. -/
theorem edgeDom_init (g : List (List ℤ)) : EdgeDom (Sudoku.init g) := by
  intro p hp
  simp only [Sudoku.init] at hp
  split_ifs at hp with h
  · exact h.2.2.2.2
  · exact absurd rfl hp

/-- The initial board has no connected components. -/
theorem allPairs_init (g : List (List ℤ)) : AllPairsL (Sudoku.init g).connected :=
  fun c hc => absurd hc (List.not_mem_nil c)

/-- C4: `set_edge(pos, edge_type)` returns `True` and stores
`edge_type` at `pos` if and only if the edge map currently holds
`SPACE` at `pos` and `edge_type ≠ SPACE`; in every other case it
returns `False` and leaves the state (in particular the edge map)
unchanged.  The well-formedness hypotheses (edge keys are `EDGE`-kind
positions and components are two-element sets) hold in every state the
program reaches and keep the `THICK` path's component merge from
failing. -/
theorem claim_C4_set_edge (s : Sudoku) (pos : Position) (et : EdgeType)
    (hd : EdgeDom s) (hp : AllPairsL s.connected) :
    (s.edge pos = some (some EdgeType.SPACE) ∧ et ≠ EdgeType.SPACE →
      (set_edge pos (some et) s).1 = .ok true ∧
      (set_edge pos (some et) s).2.edge pos = some (some et)) ∧
    (¬(s.edge pos = some (some EdgeType.SPACE) ∧ et ≠ EdgeType.SPACE) →
      set_edge pos (some et) s = (.ok false, s)) := by
  constructor
  · intro hcond
    have hc : s.edge pos = some (some EdgeType.SPACE) ∧
        (some et : Option EdgeType) ≠ some EdgeType.SPACE :=
      ⟨hcond.1, by simpa using hcond.2⟩
    rcases setEdgeNC_pos_eval pos (some et) s hc with ⟨cs, hnc⟩
    rw [set_edge_eval, hnc]
    dsimp only
    by_cases ht : et = EdgeType.THICK
    · subst ht
      rw [if_pos ⟨rfl, rfl⟩]
      have hkind : pos.kind = Kind.EDGE := hd pos (by rw [hcond.1]; simp)
      have hcard := seSet_card_two pos hkind
      rcases dfc_ok s.connected.length (seSet pos Direction.orthogonals ∅)
        { s with
            edge := fun q => if q = pos then some (some EdgeType.THICK) else s.edge q
            commandStack := cs }
        (le_refl _) hcard hp with ⟨s2, hs2, _⟩
      have hmono := monoDfc s.connected.length (seSet pos Direction.orthogonals ∅)
        { s with
            edge := fun q => if q = pos then some (some EdgeType.THICK) else s.edge q
            commandStack := cs }
        (le_refl _)
      rw [hs2] at hmono
      constructor
      · show (M.bind' _ (fun _ => M.pure' true) _).1 = .ok true
        unfold M.bind'
        dsimp only
        rw [hs2]
        rfl
      · show (M.bind' _ (fun _ => M.pure' true) _).2.edge pos = _
        unfold M.bind'
        dsimp only
        rw [hs2]
        exact hmono.1 pos (some EdgeType.THICK) (by simp) (by simp)
    · rw [if_neg (by intro h; exact ht (Option.some_injective _ h.2))]
      exact ⟨rfl, by simp⟩
  · intro hcond
    have hc : ¬(s.edge pos = some (some EdgeType.SPACE) ∧
        (some et : Option EdgeType) ≠ some EdgeType.SPACE) := by
      intro h
      exact hcond ⟨h.1, by simpa using h.2⟩
    rw [set_edge_eval, setEdgeNC_neg_eval pos (some et) s hc]
    dsimp only
    rw [if_neg (by simp)]

/-- Witness for C4: on `Sudoku([[0]])`, fixing edge (0,1) to `CROSS`
returns `True` and stores it; repeating the call returns `False` and
changes nothing. -/
theorem claim_C4_set_edge_witness :
    ((set_edge ⟨0, 1⟩ (some .CROSS) (Sudoku.init [[0]])).1 = .ok true ∧
      (set_edge ⟨0, 1⟩ (some .CROSS) (Sudoku.init [[0]])).2.edge ⟨0, 1⟩ =
        some (some .CROSS)) := by
  have h := claim_C4_set_edge (Sudoku.init [[0]]) ⟨0, 1⟩ .CROSS
    (edgeDom_init _) (allPairs_init _)
  exact h.1 ⟨by decide, by decide⟩

/-- C10: from any state whose edge keys are `EDGE`-kind positions and
whose stored components all have exactly two positions, `set_edge`
never fails (in particular the two-endpoint unpacking inside
`deduce_from_connected` never fails) and leaves every stored component
with exactly two positions again; and the `neighbor_vertex` set passed
to `deduce_from_connected` always has exactly two elements. -/
theorem claim_C10_components (s : Sudoku) (pos : Position)
    (et : Option EdgeType) (hd : EdgeDom s) (hp : AllPairsL s.connected) :
    (∃ b s', set_edge pos et s = (.ok b, s') ∧ AllPairsL s'.connected) ∧
    (pos.kind = Kind.EDGE → (seSet pos Direction.orthogonals ∅).card = 2) := by
  constructor
  · rw [set_edge_eval]
    by_cases hc : s.edge pos = some (some EdgeType.SPACE) ∧ et ≠ some EdgeType.SPACE
    · rcases setEdgeNC_pos_eval pos et s hc with ⟨cs, hnc⟩
      rw [hnc]
      dsimp only
      by_cases ht : et = some EdgeType.THICK
      · rw [if_pos ⟨rfl, ht⟩]
        have hkind : pos.kind = Kind.EDGE := hd pos (by rw [hc.1]; simp)
        have hcard := seSet_card_two pos hkind
        rcases dfc_ok s.connected.length (seSet pos Direction.orthogonals ∅)
          { s with
              edge := fun q => if q = pos then some et else s.edge q
              commandStack := cs }
          (le_refl _) hcard hp with ⟨s2, hs2, hap2⟩
        refine ⟨true, s2, ?_, hap2⟩
        show M.bind' _ (fun _ => M.pure' true) _ = _
        unfold M.bind'
        dsimp only
        rw [hs2]
        rfl
      · rw [if_neg (by intro h; exact ht h.2)]
        exact ⟨true, _, rfl, hp⟩
    · rw [setEdgeNC_neg_eval pos et s hc]
      exact ⟨false, s, rfl, hp⟩
  · exact fun hk => seSet_card_two pos hk

/-- Witness for C10: setting edge (0,1) of `Sudoku([[0]])` to `THICK`
triggers the component merge; it succeeds and all components have two
positions, and the vertex-neighbor set of (0,1) has two elements. -/
theorem claim_C10_components_witness :
    (∃ b s', set_edge ⟨0, 1⟩ (some .THICK) (Sudoku.init [[0]]) = (.ok b, s') ∧
      AllPairsL s'.connected) ∧
    (seSet ⟨0, 1⟩ Direction.orthogonals ∅).card = 2 := by
  have h := claim_C10_components (Sudoku.init [[0]]) ⟨0, 1⟩ (some .THICK)
    (edgeDom_init _) (allPairs_init _)
  exact ⟨h.1, h.2 (by decide)⟩

/-! ## Characterization of the component merge (claim C6) -/

/-- The merge search finds exactly the first component sharing exactly
one position with `set1`, returning the list with it removed. -/
theorem findMerge_some_iff (set1 : Finset Position) :
    ∀ (l : List (Finset Position)) (c : Finset Position)
      (rem : List (Finset Position)),
      findMerge set1 l = some (c, rem) ↔
        ∃ l1 l2, l = l1 ++ c :: l2 ∧ rem = l1 ++ l2 ∧
          (set1 ∩ c).card = 1 ∧ ∀ c' ∈ l1, (set1 ∩ c').card ≠ 1 := by
  intro l
  induction l with
  | nil =>
    intro c rem
    simp only [findMerge]
    constructor
    · intro h; cases h
    · rintro ⟨l1, l2, habs, -⟩
      exact absurd habs (by simp)
  | cons a rest ih =>
    intro c rem
    simp only [findMerge]
    by_cases hcard : (set1 ∩ a).card = 1
    · rw [if_pos hcard]
      constructor
      · intro h
        cases h
        exact ⟨[], rest, rfl, rfl, hcard, by simp⟩
      · rintro ⟨l1, l2, hsplit, hrem, hc1, hnone⟩
        rcases l1 with _ | ⟨b, l1'⟩
        · simp only [List.nil_append] at hsplit hrem
          cases hsplit
          rw [hrem]
        · simp only [List.cons_append, List.cons.injEq] at hsplit
          exact absurd (hsplit.1 ▸ hcard) (hnone b (List.mem_cons_self _ _))
    · rw [if_neg hcard]
      constructor
      · intro h
        split at h
        · next cc rr heq =>
          cases h
          rcases (ih _ _).mp heq with ⟨l1, l2, hsplit, hrem, hc1, hnone⟩
          refine ⟨a :: l1, l2, by rw [hsplit]; rfl,
            by rw [hrem, List.cons_append], hc1, ?_⟩
          intro c' hc'
          rcases List.mem_cons.mp hc' with h' | h'
          · rw [h']; exact hcard
          · exact hnone c' h'
        · cases h
      · rintro ⟨l1, l2, hsplit, hrem, hc1, hnone⟩
        rcases l1 with _ | ⟨b, l1'⟩
        · simp only [List.nil_append] at hsplit
          cases hsplit
          exact absurd hc1 hcard
        · simp only [List.cons_append, List.cons.injEq] at hsplit
          have hfm : findMerge set1 rest = some (c, l1' ++ l2) :=
            (ih c (l1' ++ l2)).mpr ⟨l1', l2, hsplit.2, rfl, hc1,
              fun c' hc' => hnone c' (List.mem_cons_of_mem _ hc')⟩
          rw [hfm]
          dsimp only
          rw [hrem, hsplit.1, List.cons_append]

theorem findMerge_none_of (set1 : Finset Position) :
    ∀ l : List (Finset Position),
      (∀ c ∈ l, (set1 ∩ c).card ≠ 1) → findMerge set1 l = none := by
  intro l
  induction l with
  | nil => intro _; rfl
  | cons a rest ih =>
    intro h
    simp only [findMerge]
    rw [if_neg (h a (List.mem_cons_self _ _))]
    rw [ih (fun c hc => h c (List.mem_cons_of_mem _ hc))]

/-- Unfolding `deduce_from_connected` in the merge case. -/
theorem dfc_merge_eq (set1 : Finset Position) (s : Sudoku)
    (c : Finset Position) (rem : List (Finset Position))
    (hfm : findMerge set1 s.connected = some (c, rem)) :
    deduce_from_connected set1 s =
      deduce_from_connected ((set1 ∪ c) \ (set1 ∩ c)) { s with connected := rem } := by
  rw [deduce_from_connected]
  split
  · next c' rem' heq =>
    rw [hfm] at heq
    cases heq
    rfl
  · next heq =>
    rw [hfm] at heq
    cases heq

/-- Unfolding `deduce_from_connected` in the append case. -/
theorem dfc_append_eq (set1 : Finset Position) (s : Sudoku)
    (hfm : findMerge set1 s.connected = none) :
    deduce_from_connected set1 s = dfcAppend set1 s := by
  rw [deduce_from_connected]
  split
  · next c' rem' heq =>
    rw [hfm] at heq
    cases heq
  · rfl

/-- Effect of one crossing-loop iteration on the state. -/
theorem crossLoopBody_edge (e : Position) (s0 : Sudoku) :
    ∃ s1, crossLoopBody e s0 = (.ok (), s1)
      ∧ s1.connected = s0.connected
      ∧ (∀ q, q ≠ e → s1.edge q = s0.edge q)
      ∧ s1.edge e = (if s0.edge e = some (some EdgeType.SPACE)
            ∧ s0.connected.length > 1
          then some (some EdgeType.CROSS) else s0.edge e) := by
  show ∃ s1, (if s0.edge e = some (some EdgeType.SPACE) then
      if s0.connected.length > 1 then
        M.bind' (setEdgeNC e (some .CROSS)) (fun _ => M.pure' ())
      else M.pure' ()
    else M.pure' ()) s0 = (.ok (), s1) ∧ _
  by_cases h1 : s0.edge e = some (some EdgeType.SPACE)
  · rw [if_pos h1]
    by_cases h2 : s0.connected.length > 1
    · rw [if_pos h2]
      rcases setEdgeNC_pos_eval e (some .CROSS) s0 ⟨h1, by simp⟩ with ⟨cs, hnc⟩
      refine ⟨{ s0 with
          edge := fun q => if q = e then some (some EdgeType.CROSS) else s0.edge q
          commandStack := cs }, ?_, rfl, ?_, ?_⟩
      · show M.bind' (setEdgeNC e (some .CROSS)) (fun _ => M.pure' ()) s0 = _
        unfold M.bind'
        rw [hnc]
        rfl
      · intro q hq
        simp [hq]
      · rw [if_pos ⟨h1, h2⟩]
        simp
    · rw [if_neg h2]
      exact ⟨s0, rfl, rfl, fun q _ => rfl, by rw [if_neg (by tauto)]⟩
  · rw [if_neg h1]
    exact ⟨s0, rfl, rfl, fun q _ => rfl, by rw [if_neg (by tauto)]⟩

/-- Final edge value after the crossing loop, for a position in the
list (the list must not repeat positions). -/
theorem crossLoop_edge :
    ∀ (l : List Position), l.Nodup → ∀ (s : Sudoku) (e : Position), e ∈ l →
      (crossLoop l s).2.edge e =
        (if s.edge e = some (some EdgeType.SPACE) ∧ s.connected.length > 1
          then some (some EdgeType.CROSS) else s.edge e) := by
  intro l
  induction l with
  | nil => intro _ s e he; cases he
  | cons a rest ih =>
    intro hnd s e he
    rcases crossLoopBody_edge a s with ⟨s1, hs1, hconn1, hother1, hself1⟩
    have hstep : crossLoop (a :: rest) s = crossLoop rest s1 := by
      show M.bind' (crossLoopBody a) (fun _ => mfor rest crossLoopBody) s = _
      unfold M.bind'
      rw [hs1]
      rfl
    rw [hstep]
    rcases List.mem_cons.mp he with he' | he'
    · subst he'
      have huntouched : ∀ (l' : List Position), e ∉ l' → ∀ s',
          (crossLoop l' s').2.edge e = s'.edge e := by
        intro l'
        induction l' with
        | nil => intro _ s'; rfl
        | cons b rest' ih' =>
          intro hnin s'
          rcases crossLoopBody_edge b s' with ⟨s2, hs2, _, hother2, _⟩
          have hstep2 : crossLoop (b :: rest') s' = crossLoop rest' s2 := by
            show M.bind' (crossLoopBody b) (fun _ => mfor rest' crossLoopBody) s' = _
            unfold M.bind'
            rw [hs2]
            rfl
          rw [hstep2]
          rw [ih' (fun h => hnin (List.mem_cons_of_mem _ h)) s2]
          exact hother2 e (fun h => hnin (h ▸ List.mem_cons_self _ _))
      rw [huntouched rest (List.Nodup.not_mem hnd) s1]
      exact hself1
    · have hne : e ≠ a := by
        intro h
        exact (List.Nodup.not_mem hnd) (h ▸ he')
      rw [ih (List.Nodup.of_cons hnd) s1 e he']
      rw [hother1 e hne, hconn1]

/-- The two bridge positions returned by `common_neighbors` are
distinct. -/
theorem common_neighbors_nodup (a b : Position) :
    (a.common_neighbors b).Nodup := by
  unfold Position.common_neighbors
  rcases h1 : Direction.orthogonals.find? (fun d => a.move d 2 = b) with _ | d
  · rcases h2 : Direction.diagonals.find? (fun d => a.move d 1 = b) with _ | d
    · simp
    · have hd : d ∈ Direction.diagonals := List.mem_of_find?_eq_some h2
      have : d = .UP_LEFT ∨ d = .UP_RIGHT ∨ d = .DOWN_LEFT ∨ d = .DOWN_RIGHT := by
        simpa [Direction.diagonals] using hd
      rcases this with h | h | h | h <;> subst h <;>
        simp [Position.move, Direction.to_delta,
          show Direction.UP_LEFT.rotate 1 = Direction.UP from rfl,
          show Direction.UP_LEFT.rotate (-1) = Direction.LEFT from rfl,
          show Direction.UP_RIGHT.rotate 1 = Direction.RIGHT from rfl,
          show Direction.UP_RIGHT.rotate (-1) = Direction.UP from rfl,
          show Direction.DOWN_LEFT.rotate 1 = Direction.LEFT from rfl,
          show Direction.DOWN_LEFT.rotate (-1) = Direction.DOWN from rfl,
          show Direction.DOWN_RIGHT.rotate 1 = Direction.DOWN from rfl,
          show Direction.DOWN_RIGHT.rotate (-1) = Direction.RIGHT from rfl,
          Position.mk.injEq]
  · simp

/-- C6: `deduce_from_connected(set1)` merges with an existing component
exactly when that component is the first sharing exactly one position
with `set1` (removing it and recursing on the symmetric remainder); a
component sharing zero or two positions is never the merge target; and
once `set1` (or its fully merged successor) is appended, each
still-`SPACE` edge among the common neighbors of its two endpoints is
set to `CROSS` precisely when more than one component remains. -/
theorem claim_C6_deduce_from_connected (s : Sudoku) (set1 : Finset Position)
    (p1 p2 : Position) :
    (∀ c rem, findMerge set1 s.connected = some (c, rem) ↔
      ∃ l1 l2, s.connected = l1 ++ c :: l2 ∧ rem = l1 ++ l2 ∧
        (set1 ∩ c).card = 1 ∧ ∀ c' ∈ l1, (set1 ∩ c').card ≠ 1) ∧
    (∀ c rem, findMerge set1 s.connected = some (c, rem) →
      deduce_from_connected set1 s =
        deduce_from_connected ((set1 ∪ c) \ (set1 ∩ c))
          { s with connected := rem }) ∧
    ((∀ c ∈ s.connected, (set1 ∩ c).card ≠ 1) →
      twoElems set1 = some (p1, p2) →
      (deduce_from_connected set1 s).2.connected = s.connected ++ [set1] ∧
      ∀ e ∈ p1.common_neighbors p2, s.edge e = some (some EdgeType.SPACE) →
        ((deduce_from_connected set1 s).2.edge e = some (some EdgeType.CROSS) ↔
          s.connected ≠ [])) := by
  refine ⟨fun c rem => findMerge_some_iff set1 s.connected c rem,
    fun c rem hfm => dfc_merge_eq set1 s c rem hfm, ?_⟩
  intro hnone hpq
  have hfm := findMerge_none_of set1 s.connected hnone
  rw [dfc_append_eq set1 s hfm]
  have hrw : dfcAppend set1 s = (match twoElems set1 with
      | none => throwE Err.valueError
      | some (p1, p2) => crossLoop (p1.common_neighbors p2))
      { s with connected := s.connected ++ [set1] } := rfl
  rw [hrw, hpq]
  dsimp only
  constructor
  · rcases dfcCrossLoop_shape (p1.common_neighbors p2)
      { s with connected := s.connected ++ [set1] } with ⟨s', hs', hconn⟩
    rw [hs']
    exact hconn
  · intro e he hsp
    rw [crossLoop_edge (p1.common_neighbors p2) (common_neighbors_nodup p1 p2)
      { s with connected := s.connected ++ [set1] } e he]
    by_cases hnil : s.connected = []
    · rw [if_neg (by
        intro hcontra
        rcases hcontra with ⟨-, hlen⟩
        rw [hnil] at hlen
        simp at hlen)]
      constructor
      · intro habs
        rw [hsp] at habs
        cases habs
      · intro habs
        exact absurd hnil habs
    · rw [if_pos ⟨hsp, by
        have : s.connected.length ≠ 0 := fun h => hnil (List.length_eq_zero.mp h)
        simp only [List.length_append, List.length_cons, List.length_nil]
        omega⟩]
      simp [hnil]

/-- Witness for C6 at a concrete input: with no components yet, the
pair {(0,0),(0,2)} is appended and, the component list having length
one, the bridging edge (0,1) is not crossed out. -/
theorem claim_C6_deduce_from_connected_witness :
    (deduce_from_connected ({⟨0, 0⟩, ⟨0, 2⟩} : Finset Position)
        (Sudoku.init [[1]])).2.connected =
      (Sudoku.init [[1]]).connected ++ [({⟨0, 0⟩, ⟨0, 2⟩} : Finset Position)] ∧
    ¬((deduce_from_connected ({⟨0, 0⟩, ⟨0, 2⟩} : Finset Position)
        (Sudoku.init [[1]])).2.edge ⟨0, 1⟩ = some (some EdgeType.CROSS)) := by
  have h := (claim_C6_deduce_from_connected (Sudoku.init [[1]])
    ({⟨0, 0⟩, ⟨0, 2⟩} : Finset Position) ⟨0, 0⟩ ⟨0, 2⟩).2.2
    (by intro c hc; cases hc) (by decide)
  refine ⟨h.1, ?_⟩
  intro habs
  have h2 := (h.2 ⟨0, 1⟩ (by decide) (by decide)).mp habs
  exact h2 rfl

/-- `set_edge` with `CROSS` coincides with `setEdgeNC` (the `THICK`
branch is never taken), justifying the rendering of the recursive
`set_edge` call inside `deduce_from_connected`. -/
theorem set_edge_cross_eq (pos : Position) (s : Sudoku) :
    set_edge pos (some EdgeType.CROSS) s =
      M.bind' (setEdgeNC pos (some EdgeType.CROSS)) (fun r => M.pure' r.1) s := by
  rw [set_edge_eval]
  unfold M.bind'
  rcases setEdgeNC pos (some EdgeType.CROSS) s with ⟨r | e, s1⟩
  all_goals dsimp only
  rw [if_neg (by intro h; cases h.2)]
  rfl

/-! ## Domain of the corner-count map (claim C7) -/

/-- C7 (amended): in the state built by `Sudoku.__init__`, the key set
of the `edge_count` map is exactly {entry positions} × {the four
diagonal directions}.  (The original claim's \"in every reachable
state\" fails: see the counterexample theorem.) -/
theorem claim_C7_edge_count_domain (g : List (List ℤ))
    (k : Position × Direction) :
    (Sudoku.init g).edgeCount k ≠ none ↔
      ((Sudoku.init g).entryGet k.1 ≠ none ∧ k.2 ∈ Direction.diagonals) := by
  show (if ((((Sudoku.init g).entry.find? (fun q => q.1 = k.1)).map (·.2)).isSome
      ∧ k.2 ∈ Direction.diagonals) then some EdgeCount.ANY else none) ≠ none ↔ _
  unfold Sudoku.entryGet
  split_ifs with h
  · constructor
    · intro _
      exact ⟨by simpa [Option.isSome_iff_ne_none] using h.1, h.2⟩
    · intro _
      simp
  · constructor
    · intro habs
      exact absurd rfl habs
    · intro hrhs
      exact absurd ⟨by simpa [Option.isSome_iff_ne_none] using hrhs.1, hrhs.2⟩ h

/-- Counterexample to C7 as stated: on `Sudoku([[1]])`, after
narrowing the UP_LEFT corner of the entry (1,1) to `ZERO` and running
`deduce_from_corner` there twice, the diagonal propagation of
`deduce_from_corner` to `pos.move(direction, 2)` has stored a count at
((-1,-1), DOWN_RIGHT) — a position outside the board lattice with no
entry, so the key set is no longer {entries} × {diagonals}. -/
theorem claim_C7_counterexample :
    (runOps [.opSetEdgeCount ⟨1, 1⟩ .UP_LEFT (some .ZERO),
             .opDedCorner ⟨1, 1⟩ .UP_LEFT,
             .opDedCorner ⟨1, 1⟩ .UP_LEFT] (Sudoku.init [[1]])).edgeCount
        (⟨-1, -1⟩, .DOWN_RIGHT) ≠ none ∧
    (runOps [.opSetEdgeCount ⟨1, 1⟩ .UP_LEFT (some .ZERO),
             .opDedCorner ⟨1, 1⟩ .UP_LEFT,
             .opDedCorner ⟨1, 1⟩ .UP_LEFT] (Sudoku.init [[1]])).entryGet
        ⟨-1, -1⟩ = none := by
  constructor
  · decide
  · decide

end SlitherLink
